import Mathlib

/-!
Verification of the desertbus-games Only Connect game server.

Shallow embedding of the data model and state machines of the repository:

* `src/catbox/games/only_connect/play/state_machine.py` — the per-round state
  machines (standard round, missing vowels, connecting wall).
* `src/catbox/games/only_connect/episode.py` — the episode content model.
* `src/catbox/games/only_connect/engine.py` — (de)serialisation of episodes.
* `src/catbox/engine/engine.py` — episode version lifecycle (`save_state`).
* `src/catbox/room.py` — room idle tracking (`ping` / `reap` / `stop`).

Python exceptions are modelled with `Option`: a handler that would raise
returns `none`; a normal return of `r` is `some r`.  Mutations are modelled by
explicit state passing.  Team scores (held on the room in the source) are
embedded as a `List Int` carried inside each round-state structure.
-/

namespace Catbox

/-- `SLOTS_PER_CONNECTION` in `episode.py`. -/
def SLOTS_PER_CONNECTION : Nat := 4

/-- `QUESTIONS_PER_ROUND` in `episode.py`. -/
def QUESTIONS_PER_ROUND : Nat := 6

/-- `InRoundState` enum from `state_machine.py`. -/
inductive InRoundState where
  | PRE_ROUND
  | QUESTION_SELECTION
  | QUESTION_ACTIVE
  | LOCKED_IN
  | STEALING
  | ANSWER_REVEALED
  | POST_ROUND
deriving DecidableEq, Repr

/-- `PossibleActions` enum from `state_machine.py`. -/
inductive PossibleActions where
  | NEXT_QUESTION
  | SELECT_TWO_REEDS
  | SELECT_LION
  | SELECT_TWISTED_FLAX
  | SELECT_HORNED_VIPER
  | SELECT_WATER
  | SELECT_EYE_OF_HORUS
  | NEXT_CLUE
  | LOCK_IN
  | REVEAL_FOR_STEAL
  | SCORE_TEAM1
  | SCORE_TEAM2
  | SCORE_STEAL
  | SCORE_INCORRECT
  | START_NEXT_ROUND
deriving DecidableEq, Repr

/-- `Blob` dataclass from `blob.py` (the fields stored in the database). -/
structure Blob where
  blob_id : String
  mimetype : String
  width : Nat
  height : Nat
deriving DecidableEq, Repr

/-- The JSON dictionary produced by `Blob.json()`. -/
structure BlobJson where
  blob_id : String
  mimetype : String
  width : Nat
  height : Nat
  url : String
deriving DecidableEq, Repr

/-- `Blob.url`. -/
def Blob.url (b : Blob) : String := "/blob/" ++ b.blob_id

/-- `Blob.json()`: the dataclass fields plus the derived `url`. -/
def Blob.json (b : Blob) : BlobJson :=
  ⟨b.blob_id, b.mimetype, b.width, b.height, b.url⟩

/-- An in-memory clue element.  In the source the annotation is `str | Blob`,
but `OnlyConnectEngine._load_data` stores the raw JSON dictionary of a blob
back into the elements list when rebuilding an episode, so a third shape of
value actually occurs; `jdict` covers it. -/
inductive OCElement where
  | text (s : String)
  | blobRef (b : Blob)
  | jdict (d : BlobJson)
deriving DecidableEq, Repr

/-- A serialised clue element: a JSON string or a JSON object. -/
inductive JElem where
  | jstr (s : String)
  | jobj (d : BlobJson)
deriving DecidableEq, Repr

/-- Element serialisation in `OnlyConnectQuestion.json()`:
`e.json() if isinstance(e, Blob) else e`. -/
def OCElement.json : OCElement → JElem
  | .text s => .jstr s
  | .blobRef b => .jobj b.json
  | .jdict d => .jobj d

/-- Python truthiness of an element, as used by `all(self.elements)` in
`OnlyConnectQuestion.valid`.  A `Blob` instance is always truthy; a blob JSON
dictionary is non-empty hence truthy; a string is truthy iff non-empty. -/
def OCElement.truthy : OCElement → Bool
  | .text s => s ≠ ""
  | .blobRef _ => true
  | .jdict _ => true

/-- `OnlyConnectQuestion` (the stored fields). -/
structure OCQuestion where
  question_type : String
  connection : String
  details : String
  elements : List OCElement
deriving DecidableEq, Repr

/-- `OnlyConnectQuestion.__init__`: raises `ValueError` (modelled as `none`)
unless the type is `text`/`media` and there are exactly 4 elements. -/
def mkOCQuestion (question_type connection details : String)
    (elements : List OCElement) : Option OCQuestion :=
  if question_type ≠ "text" ∧ question_type ≠ "media" then none
  else if elements.length ≠ SLOTS_PER_CONNECTION then none
  else some ⟨question_type, connection, details, elements⟩

/-- `OnlyConnectTextQuestion.__init__`: additionally requires the type to be
exactly `"text"` (then delegates to the base constructor with `"text"`). -/
def mkOCTextQuestion (question_type connection details : String)
    (elements : List OCElement) : Option OCQuestion :=
  if question_type ≠ "text" then none
  else mkOCQuestion "text" connection details elements

/-- `OnlyConnectQuestion.valid`. -/
def OCQuestion.valid (q : OCQuestion) : Bool :=
  q.connection ≠ "" && q.elements.length == SLOTS_PER_CONNECTION
    && q.elements.all OCElement.truthy

/-- `OnlyConnectQuestion.default()` rebuilt through the constructor. -/
def defaultOCQuestion : OCQuestion :=
  ⟨"text", "", "", [.text "", .text "", .text "", .text ""]⟩

/-!
## Standard round state machine (`StandardRoundState`)

The structure carries the room's team scores (`room.teams[i].score`) together
with the handler's own fields.  `SixQuestions` is embedded as a `List`.
-/

structure StdRound where
  teams : List Int
  state : InRoundState
  active_team : Nat
  data : List OCQuestion
  available : List (Option PossibleActions)
  current_question : OCQuestion
  revealed_clues : Nat
  max_revealed : Nat
deriving DecidableEq, Repr

/-- `[0, 5, 3, 2, 1]`, the score ladder used by `StandardRoundState.score`. -/
def stdScoreTable : List Int := [0, 5, 3, 2, 1]

/-- `StandardRoundState.next_question`. -/
def StdRound.next_question (s : StdRound) : Option (Bool × StdRound) :=
  if s.state ≠ .PRE_ROUND ∧ s.state ≠ .ANSWER_REVEALED then some (false, s)
  else if ¬ s.available.any (fun a => a.isSome) then
    some (true, { s with state := .POST_ROUND })
  else
    let s1 := if s.teams.length ≠ 1 then
        { s with active_team := if s.active_team = 0 then 1 else 0 }
      else s
    some (true, { s1 with state := .QUESTION_SELECTION })

/-- `StandardRoundState.select`. -/
def StdRound.select (s : StdRound) (question : PossibleActions) :
    Option (Bool × StdRound) :=
  if s.state ≠ .QUESTION_SELECTION then some (false, s)
  else if some question ∈ s.available then
    let index := s.available.indexOf (some question)
    match s.data.get? index with
    | none => none
    | some q =>
        some (true, { s with
          state := .QUESTION_ACTIVE
          current_question := q
          revealed_clues := 1
          available := s.available.set index none })
  else some (false, s)

/-- `StandardRoundState.next_clue`. -/
def StdRound.next_clue (s : StdRound) : Option (Bool × StdRound) :=
  if s.state ≠ .QUESTION_ACTIVE then some (false, s)
  else if s.revealed_clues ≥ s.max_revealed then some (false, s)
  else
    let r := s.revealed_clues + 1
    some (true, { s with
      revealed_clues := r
      state := if r = s.max_revealed then .LOCKED_IN else s.state })

/-- `StandardRoundState.lock_in`. -/
def StdRound.lock_in (s : StdRound) : Option (Bool × StdRound) :=
  if s.state ≠ .QUESTION_ACTIVE then some (false, s)
  else some (true, { s with state := .LOCKED_IN })

/-- `StandardRoundState.score`.  `[0,5,3,2,1][revealed_clues]` and
`teams[team]` raise `IndexError` when out of range (modelled as `none`). -/
def StdRound.score (s : StdRound) (team : Nat) : Option (Bool × StdRound) :=
  if s.state ≠ .LOCKED_IN then some (false, s)
  else
    match stdScoreTable.get? s.revealed_clues, s.teams.get? team with
    | some pts, some old =>
        some (true, { s with
          teams := s.teams.set team (old + pts)
          state := .ANSWER_REVEALED
          revealed_clues := SLOTS_PER_CONNECTION })
    | _, _ => none

/-- `StandardRoundState.score_team1`. -/
def StdRound.score_team1 (s : StdRound) : Option (Bool × StdRound) := s.score 0

/-- `StandardRoundState.score_team2`. -/
def StdRound.score_team2 (s : StdRound) : Option (Bool × StdRound) := s.score 1

/-- `StandardRoundState.score_steal`: credits `teams[1 - active_team]`. -/
def StdRound.score_steal (s : StdRound) : Option (Bool × StdRound) :=
  if s.state ≠ .STEALING then some (false, s)
  else
    match s.teams.get? (1 - s.active_team) with
    | none => none
    | some old =>
        some (true, { s with
          teams := s.teams.set (1 - s.active_team) (old + 1)
          state := .ANSWER_REVEALED
          revealed_clues := SLOTS_PER_CONNECTION })

/-- `StandardRoundState.score_incorrect`. -/
def StdRound.score_incorrect (s : StdRound) : Option (Bool × StdRound) :=
  if s.state ≠ .LOCKED_IN ∧ s.state ≠ .STEALING then some (false, s)
  else some (true, { s with state := .ANSWER_REVEALED,
                            revealed_clues := SLOTS_PER_CONNECTION })

/-- `StandardRoundState.reveal_for_steal`.  Note: the source method performs
no sub-state check at all — it unconditionally reveals and moves to
STEALING. -/
def StdRound.reveal_for_steal (s : StdRound) : Option (Bool × StdRound) :=
  some (true, { s with revealed_clues := s.max_revealed, state := .STEALING })

/-- `RoundHandler.do` specialised to `StandardRoundState`: the dispatch table
maps each action to the corresponding handler; `START_NEXT_ROUND` has no
entry so `do` returns `False`. -/
def StdRound.do_action (s : StdRound) : PossibleActions → Option (Bool × StdRound)
  | .NEXT_QUESTION => s.next_question
  | .SELECT_TWO_REEDS => s.select .SELECT_TWO_REEDS
  | .SELECT_LION => s.select .SELECT_LION
  | .SELECT_TWISTED_FLAX => s.select .SELECT_TWISTED_FLAX
  | .SELECT_HORNED_VIPER => s.select .SELECT_HORNED_VIPER
  | .SELECT_WATER => s.select .SELECT_WATER
  | .SELECT_EYE_OF_HORUS => s.select .SELECT_EYE_OF_HORUS
  | .NEXT_CLUE => s.next_clue
  | .LOCK_IN => s.lock_in
  | .REVEAL_FOR_STEAL => s.reveal_for_steal
  | .SCORE_TEAM1 => s.score_team1
  | .SCORE_TEAM2 => s.score_team2
  | .SCORE_STEAL => s.score_steal
  | .SCORE_INCORRECT => s.score_incorrect
  | .START_NEXT_ROUND => some (false, s)

/-- `StandardRoundState.possible_actions`. -/
def StdRound.possible_actions (s : StdRound) : List PossibleActions :=
  match s.state with
  | .PRE_ROUND => [.NEXT_QUESTION]
  | .QUESTION_SELECTION => []
  | .QUESTION_ACTIVE => [.LOCK_IN, .NEXT_CLUE]
  | .STEALING => [.SCORE_STEAL, .SCORE_INCORRECT]
  | .ANSWER_REVEALED => [.NEXT_QUESTION]
  | .POST_ROUND => [.START_NEXT_ROUND]
  | .LOCKED_IN =>
      if s.teams.length = 1 then [.SCORE_TEAM1, .SCORE_INCORRECT]
      else [(if s.active_team = 0 then .SCORE_TEAM1 else .SCORE_TEAM2),
            .REVEAL_FOR_STEAL]

/-!
## Missing vowels helpers (`MissingVowelsGroup` in `episode.py`)

Python strings are embedded as lists of code points (`List Nat`); `str.upper`
is modelled on the ASCII range, which covers every string the claims quantify
over.
-/

/-- ASCII `str.upper` on one code point. -/
def pyUpperCode (n : Nat) : Nat :=
  if 97 ≤ n ∧ n ≤ 122 then n - 32 else n

/-- `str.upper` over a whole string. -/
def pyUpperCodes (s : List Nat) : List Nat := s.map pyUpperCode

/-- Membership in the character class `[ AEIOU]` of the `VOWELS_AND_SPACES`
regular expression (codes 32, 65, 69, 73, 79, 85). -/
def isVowelSpaceCode (n : Nat) : Bool :=
  n = 32 || n = 65 || n = 69 || n = 73 || n = 79 || n = 85

/-- `VOWELS_AND_SPACES.sub("", s)`. -/
def subVowelsSpaces (s : List Nat) : List Nat :=
  s.filter (fun c => ! isVowelSpaceCode c)

/-- `s.replace(" ", "")`. -/
def removeSpacesCodes (s : List Nat) : List Nat :=
  s.filter (fun c => c != 32)

/-- `MissingVowelsGroup.check_valid(prompt, answer)`:
`prompt.upper().replace(" ", "") == VOWELS_AND_SPACES.sub("", answer.upper())`. -/
def check_valid_codes (prompt answer : List Nat) : Bool :=
  removeSpacesCodes (pyUpperCodes prompt) == subVowelsSpaces (pyUpperCodes answer)

/-- Python `str.strip` character class: ASCII whitespace. -/
def pyIsSpaceCode (n : Nat) : Bool :=
  n = 32 || n = 9 || n = 10 || n = 13 || n = 11 || n = 12

/-- `s.strip()`. -/
def pyStripCodes (s : List Nat) : List Nat :=
  ((s.dropWhile pyIsSpaceCode).reverse.dropWhile pyIsSpaceCode).reverse

/-- The `while (x := x + random.randint(2, 6)) < len(prompt)` loop of
`generate_prompt`: each loop iteration inserts one space at position `x` of
the (growing) prompt.  The random draws are passed in as `strides`; the loop
also stops if the supplied list of draws runs out. -/
def insertSpaces : List Nat → Nat → List Nat → List Nat
  | p, _, [] => p
  | p, x, stride :: rest =>
      if x + stride < p.length then
        insertSpaces (p.take (x + stride) ++ 32 :: p.drop (x + stride))
          (x + stride) rest
      else p

/-- `MissingVowelsGroup.generate_prompt(answer)` with the random stride draws
made explicit. -/
def generate_prompt_codes (strides : List Nat) (answer : List Nat) : List Nat :=
  pyStripCodes (insertSpaces (subVowelsSpaces (pyUpperCodes answer)) 0 strides)

/-- Code points of a Lean string. -/
def strCodes (s : String) : List Nat := s.data.map Char.toNat

/-- `MissingVowelsGroup.check_valid` on `String`s. -/
def check_valid (prompt answer : String) : Bool :=
  check_valid_codes (strCodes prompt) (strCodes answer)

/-- `MissingVowelsGroup`: a connection plus `words`, whose entries are
`(answer, prompt)` pairs or `None` (deleted by the CMS). -/
structure MVGroup where
  connection : String
  words : List (Option (String × String))
deriving DecidableEq, Repr

/-- `MissingVowelsGroup.valid_pairs`: the `(answer, prompt)` pairs that are
present and pass `check_valid(prompt, answer)` (the source yields them from a
generator; we materialise the list of yielded elements). -/
def MVGroup.valid_pairs (g : MVGroup) : List (String × String) :=
  (g.words.filterMap id).filter (fun x => check_valid x.2 x.1)

/-- `MissingVowelsGroup.valid`. -/
def MVGroup.valid (g : MVGroup) : Bool :=
  (g.words.filterMap id).any (fun x => check_valid x.2 x.1)

/-- `MissingVowelsGroup.pairs`: `(index, answer, prompt, valid)` for each
present entry. -/
def MVGroup.pairs (g : MVGroup) : List (Nat × String × String × Bool) :=
  g.words.enum.filterMap
    (fun p => p.2.map (fun x => (p.1, x.1, x.2, check_valid x.2 x.1)))

/-- `MissingVowelsGroup.__init__(connection, words)`: keeps `word[1]` and
`word[2]` of each entry of the supplied `words` list. -/
def mkMVGroup (connection : String)
    (words : List (Nat × String × String × Bool)) : MVGroup :=
  ⟨connection, words.map (fun w => some (w.2.1, w.2.2.1))⟩

/-!
## Missing vowels state machine (`MissingVowelsState`)
-/

structure MVState where
  teams : List Int
  state : InRoundState
  questions : List MVGroup
  current_group : List (String × String)
  group_index : Int
  question_index : Int
deriving DecidableEq, Repr

/-- Python list indexing with an `Int` subscript: negative indices address
from the end; out-of-range raises `IndexError` (`none`). -/
def pyGet {α : Type} (l : List α) (i : Int) : Option α :=
  if 0 ≤ i then l.get? i.toNat
  else if (-i).toNat ≤ l.length then l.get? (l.length - (-i).toNat)
  else none

/-- `MissingVowelsState.__init__`.  NOTE: the source filters the groups with
`[group for group in questions if group.valid_pairs]`, but `valid_pairs` is a
*generator property* — the generator object is always truthy, so the filter
keeps every group.  The embedding keeps the (vacuous) filter shape. -/
def MVState.init (teams : List Int) (questions : List MVGroup) : MVState :=
  { teams := teams
    state := .PRE_ROUND
    questions := questions.filter (fun _ => true)
    current_group := []
    group_index := -1
    question_index := -1 }

/-- `MissingVowelsState.next_group`.  Mirrors the source faithfully,
including the fall-through after the recursive call: when the recursion has
moved to POST_ROUND, the caller frame still resets `question_index` and
forces the state back to QUESTION_ACTIVE. -/
def MVState.next_group (s : MVState) : Option MVState :=
  let gi := s.group_index + 1
  if gi ≥ (s.questions.length : Int) then
    some { s with group_index := gi, state := .POST_ROUND }
  else
    match pyGet s.questions gi with
    | none => none
    | some grp =>
        let s1 := { s with group_index := gi, current_group := grp.valid_pairs }
        let rest : Option MVState :=
          if s1.current_group = [] then s1.next_group else some s1
        match rest with
        | none => none
        | some s2 =>
            some { s2 with question_index := 0, state := .QUESTION_ACTIVE }
termination_by ((s.questions.length : Int) + 1 - (s.group_index + 1)).toNat
decreasing_by omega

/-- `MissingVowelsState.next_question`. -/
def MVState.next_question (s : MVState) : Option (Bool × MVState) :=
  if s.state = .PRE_ROUND then s.next_group.map (fun s1 => (true, s1))
  else if s.state ≠ .ANSWER_REVEALED then some (false, s)
  else
    let s1 := { s with question_index := s.question_index + 1,
                       state := .QUESTION_ACTIVE }
    if s1.question_index ≥ (s1.current_group.length : Int) then
      s1.next_group.map (fun s2 => (true, s2))
    else some (true, s1)

/-- `MissingVowelsState.score_team1`. -/
def MVState.score_team1 (s : MVState) : Option (Bool × MVState) :=
  if s.state ≠ .QUESTION_ACTIVE then some (false, s)
  else
    match s.teams.get? 0 with
    | none => none
    | some old =>
        some (true, { s with teams := s.teams.set 0 (old + 1),
                             state := .ANSWER_REVEALED })

/-- `MissingVowelsState.score_team2`. -/
def MVState.score_team2 (s : MVState) : Option (Bool × MVState) :=
  if s.state ≠ .QUESTION_ACTIVE then some (false, s)
  else
    match s.teams.get? 1 with
    | none => none
    | some old =>
        some (true, { s with teams := s.teams.set 1 (old + 1),
                             state := .ANSWER_REVEALED })

/-- `MissingVowelsState.score_incorrect`. -/
def MVState.score_incorrect (s : MVState) : Option (Bool × MVState) :=
  if s.state ≠ .QUESTION_ACTIVE then some (false, s)
  else some (true, { s with state := .ANSWER_REVEALED })

/-- `MissingVowelsState.possible_actions`. -/
def MVState.possible_actions (s : MVState) : List PossibleActions :=
  if s.state = .QUESTION_ACTIVE then
    [.SCORE_TEAM1, .SCORE_TEAM2, .SCORE_INCORRECT]
  else if s.state = .POST_ROUND then [.START_NEXT_ROUND]
  else [.NEXT_QUESTION]

/-- `RoundHandler.do` specialised to `MissingVowelsState`: actions whose
handlers are not overridden fall back to the base-class methods returning
`False`. -/
def MVState.do_action (s : MVState) : PossibleActions → Option (Bool × MVState)
  | .NEXT_QUESTION => s.next_question
  | .SELECT_TWO_REEDS => some (false, s)
  | .SELECT_LION => some (false, s)
  | .SELECT_TWISTED_FLAX => some (false, s)
  | .SELECT_HORNED_VIPER => some (false, s)
  | .SELECT_WATER => some (false, s)
  | .SELECT_EYE_OF_HORUS => some (false, s)
  | .NEXT_CLUE => some (false, s)
  | .LOCK_IN => some (false, s)
  | .REVEAL_FOR_STEAL => some (false, s)
  | .SCORE_TEAM1 => s.score_team1
  | .SCORE_TEAM2 => s.score_team2
  | .SCORE_STEAL => some (false, s)
  | .SCORE_INCORRECT => s.score_incorrect
  | .START_NEXT_ROUND => some (false, s)

/-!
## Connecting wall (`ActiveWall` and `ConnectingWallState`)

Wall questions are `OnlyConnectTextQuestion`s: text-only clues.  A
`ConnectingWall` is a 4-tuple of them, embedded as a `List`.
-/

/-- An `OnlyConnectTextQuestion` as stored in a connecting wall (the
`question_type` is forced to `"text"` by its constructor). -/
structure TextQ where
  connection : String
  details : String
  elements : List String
deriving DecidableEq, Repr

/-- `OnlyConnectQuestion.valid` for a text question. -/
def TextQ.valid (q : TextQ) : Bool :=
  q.connection ≠ "" && q.elements.length == SLOTS_PER_CONNECTION
    && q.elements.all (fun e => e ≠ "")

/-- `ConnectingWall.clues`: the concatenation of the four groups. -/
def wallClues (wall : List TextQ) : List String :=
  (wall.map TextQ.elements).flatten

/-- `ConnectingWall.valid`. -/
def connectingWallValid (wall : List TextQ) : Bool :=
  wall.all TextQ.valid

/-- `ActiveWall` state. -/
structure ActiveWall where
  wall : List TextQ
  grouped : List String
  ungrouped : List String
  not_found : List String
  selected : List Nat
  strikes : Option Int
  groups : List TextQ
  confirming_group : Option Int
  is_group_revealed : Bool
deriving DecidableEq, Repr

/-- `ActiveWall.__init__`.  `random.shuffle(words)` is modelled by passing the
shuffled clue order in explicitly. -/
def ActiveWall.init (wall : List TextQ) (shuffled : List String) : ActiveWall :=
  { wall := wall
    ungrouped := shuffled
    grouped := []
    not_found := []
    selected := []
    strikes := none
    groups := []
    confirming_group := none
    is_group_revealed := true }

/-- `list.index(x)` wrapped in `try`: the index of the first occurrence. -/
def pyIndexOf (l : List String) (x : String) : Option Nat := l.indexOf? x

/-- `for index in sorted(selected, reverse=True): ungrouped.pop(index)`. -/
def removeIndices (l : List String) (idxs : List Nat) : List String :=
  (idxs.insertionSort (· ≥ ·)).foldl (fun acc i => acc.eraseIdx i) l

/-- `ActiveWall._check_match_group`.  Returns the updated wall and whether
`OverflowError` was raised.  The source raises either when the board is
solved (`len(ungrouped) == 0`) or when the strikes counter reaches zero. -/
def ActiveWall.check_match_group (w : ActiveWall) (words : List String) :
    ActiveWall × Bool :=
  match w.wall.find? (fun g => words.all (fun wd => g.elements.contains wd)) with
  | some g =>
      let ung := removeIndices w.ungrouped w.selected
      let w1 := { w with
        ungrouped := ung
        grouped := w.grouped ++ g.elements
        groups := w.groups ++ [g] }
      let w2 := if ung.length = 2 * SLOTS_PER_CONNECTION then
          { w1 with strikes := some 3 }
        else w1
      (w2, decide (ung.length = 0))
  | none =>
      match w.strikes with
      | none => (w, false)
      | some st => ({ w with strikes := some (st - 1) }, decide (st - 1 ≤ 0))

/-- `ActiveWall.toggle`.  The generator's `yield`s are fan-out points with no
state effect; the returned pair is the final wall state and whether
`OverflowError` escaped (in which case `selected` is *not* cleared). -/
def ActiveWall.toggle (w : ActiveWall) (word : String) : ActiveWall × Bool :=
  match pyIndexOf w.ungrouped word with
  | none => (w, false)
  | some index =>
      if index ∈ w.selected then
        ({ w with selected := w.selected.erase index }, false)
      else
        let w1 := { w with selected := w.selected ++ [index] }
        if w1.selected.length ≠ SLOTS_PER_CONNECTION then (w1, false)
        else
          let words := w1.selected.map (fun i => w1.ungrouped.getD i "")
          let r := w1.check_match_group words
          if r.2 then (r.1, true)
          else ({ r.1 with selected := [] }, false)

/-- `list.remove(x)`: drops the first occurrence, `ValueError` if absent. -/
def pyRemove (l : List String) (x : String) : Option (List String) :=
  if l.contains x then some (l.erase x) else none

/-- The `for element in group.elements: self.ungrouped.remove(element)` loop:
removes each element in turn; on `ValueError` stops with the partially
modified list and an error flag. -/
def removeEach : List String → List String → List String × Bool
  | ung, [] => (ung, false)
  | ung, e :: rest =>
      match pyRemove ung e with
      | none => (ung, true)
      | some u2 => removeEach u2 rest

/-- The inner `for group in self.wall` loop of `reveal_wall` for a fixed
`group_on`: every group containing `group_on` is appended to `not_found` /
`groups` and its elements removed from `ungrouped`.  Returns
`(ungrouped, not_found, groups, error)`. -/
def revealInner (head : String) :
    List TextQ → List String → List String → List TextQ →
    List String × List String × List TextQ × Bool
  | [], ung, nf, gs => (ung, nf, gs, false)
  | g :: rest, ung, nf, gs =>
      if g.elements.contains head then
        let r := removeEach ung g.elements
        if r.2 then (r.1, nf ++ g.elements, gs ++ [g], true)
        else revealInner head rest r.1 (nf ++ g.elements) (gs ++ [g])
      else revealInner head rest ung nf gs

/-- The `while self.ungrouped` loop of `reveal_wall`, with explicit fuel.
Running out of fuel (which mirrors the source looping forever when a clue
belongs to no group) is reported as an error. -/
def revealLoop : Nat → ActiveWall → ActiveWall × Bool
  | 0, w => (w, true)
  | fuel + 1, w =>
      match w.ungrouped with
      | [] => (w, false)
      | head :: _ =>
          let r := revealInner head w.wall w.ungrouped w.not_found w.groups
          let w2 := { w with ungrouped := r.1, not_found := r.2.1,
                             groups := r.2.2.1 }
          if r.2.2.2 then (w2, true)
          else revealLoop fuel w2

/-- `ActiveWall.reveal_wall`: clears `strikes`, then unscrambles all
remaining clues.  The boolean reports an escaped exception, with the wall
left partially modified. -/
def ActiveWall.reveal_wall (w : ActiveWall) : ActiveWall × Bool :=
  let w0 := { w with strikes := none }
  revealLoop (w0.ungrouped.length + 1) w0

/-- `ActiveWall.start_confirm_next_group`. -/
def ActiveWall.start_confirm_next_group (w : ActiveWall) : ActiveWall :=
  let cg := match w.confirming_group with
    | none => -1
    | some c => c
  { w with confirming_group := some (cg + 1), is_group_revealed := false }

/-- `ConnectingWallState`.  Results of its handlers are `Option Bool ×
WallRound`: the first component is `none` when an exception escaped, and the
second is the (possibly partially mutated) state in every case. -/
structure WallRound where
  teams : List Int
  state : InRoundState
  available_walls : Option (List TextQ) × Option (List TextQ)
  active_team : Nat
  active_wall : Option ActiveWall
deriving DecidableEq, Repr

/-- `ConnectingWallState.__init__`. -/
def WallRound.init (teams : List Int) (walls : List TextQ × List TextQ) :
    WallRound :=
  { teams := teams
    state := .PRE_ROUND
    available_walls := (some walls.1, some walls.2)
    active_wall := none
    active_team :=
      if 1 < teams.length ∧ teams.getD 0 0 < teams.getD 1 0 then 1 else 0 }

/-- `ConnectingWallState.possible_actions`. -/
def WallRound.possible_actions (s : WallRound) : List PossibleActions :=
  if s.state = .PRE_ROUND then [.NEXT_QUESTION]
  else if s.state = .QUESTION_SELECTION then []
  else if s.state = .POST_ROUND then [.START_NEXT_ROUND]
  else if s.state ≠ .LOCKED_IN ∧ s.active_wall.isSome then [.LOCK_IN]
  else
    match s.active_wall with
    | some w =>
        if w.confirming_group = some ((SLOTS_PER_CONNECTION : Int) - 1)
            ∧ w.is_group_revealed then
          [.NEXT_QUESTION]
        else if w.is_group_revealed then [.REVEAL_FOR_STEAL]
        else [(if s.active_team = 0 then .SCORE_TEAM1 else .SCORE_TEAM2),
              .SCORE_INCORRECT]
    | none =>
        [(if s.active_team = 0 then .SCORE_TEAM1 else .SCORE_TEAM2),
         .SCORE_INCORRECT]

/-- `ConnectingWallState.select_lion`: takes the shuffle outcome used if a
wall is started. -/
def WallRound.select_lion (s : WallRound) (shuffled : List String) :
    Option Bool × WallRound :=
  if s.state ≠ .QUESTION_SELECTION then (some false, s)
  else
    match s.available_walls.1 with
    | none => (some false, s)
    | some w =>
        (some true, { s with
          active_wall := some (ActiveWall.init w shuffled)
          available_walls := (none, s.available_walls.2)
          state := .QUESTION_ACTIVE })

/-- `ConnectingWallState.select_water`. -/
def WallRound.select_water (s : WallRound) (shuffled : List String) :
    Option Bool × WallRound :=
  if s.state ≠ .QUESTION_SELECTION then (some false, s)
  else
    match s.available_walls.2 with
    | none => (some false, s)
    | some w =>
        (some true, { s with
          active_wall := some (ActiveWall.init w shuffled)
          available_walls := (s.available_walls.1, none)
          state := .QUESTION_ACTIVE })

/-- `ConnectingWallState.next_question`.  In LOCKED_IN the source evaluates
`self.active_wall.confirming_group < SLOTS_PER_CONNECTION - 1`, which raises
`AttributeError` when there is no active wall and `TypeError` when
`confirming_group` is still `None`. -/
def WallRound.next_question (s : WallRound) : Option Bool × WallRound :=
  if s.state = .PRE_ROUND then
    (some true, { s with state := .QUESTION_SELECTION })
  else if s.state ≠ .LOCKED_IN then (some false, s)
  else
    match s.active_wall with
    | none => (none, s)
    | some w =>
        match w.confirming_group with
        | none => (none, s)
        | some cg =>
            if cg < (SLOTS_PER_CONNECTION : Int) - 1 then (some false, s)
            else if s.teams.length = 1
                ∨ ¬ (s.available_walls.1.isSome ∨ s.available_walls.2.isSome) then
              (some true, { s with state := .POST_ROUND })
            else
              (some true, { s with
                state := .QUESTION_SELECTION
                active_team := if s.active_team ≠ 0 then 0 else 1 })

/-- `ConnectingWallState.lock_in`: credits `int(len(grouped)/4)` points, then
reveals the wall, then moves to LOCKED_IN.  An exception inside
`reveal_wall` leaves the score credited and the state unchanged. -/
def WallRound.lock_in (s : WallRound) : Option Bool × WallRound :=
  if s.state ≠ .QUESTION_ACTIVE then (some false, s)
  else
    match s.active_wall with
    | none => (some false, s)
    | some w =>
        let score : Int := (w.grouped.length / 4 : Nat)
        match s.teams.get? s.active_team with
        | none => (none, s)
        | some old =>
            let s1 := { s with
              teams := s.teams.set s.active_team (old + score) }
            let r := w.reveal_wall
            let s2 := { s1 with active_wall := some r.1 }
            if r.2 then (none, s2)
            else (some true, { s2 with state := .LOCKED_IN })

/-- `ConnectingWallState.toggle` (a command, not a `PossibleActions` entry):
forwards to the active wall and, when `OverflowError` escapes, locks the
wall in. -/
def WallRound.toggle (s : WallRound) (word : String) : WallRound :=
  match s.active_wall with
  | none => s
  | some w =>
      let r := w.toggle word
      let s2 := { s with active_wall := some r.1 }
      if r.2 then (s2.lock_in).2 else s2

/-- `ConnectingWallState.reveal_for_steal`. -/
def WallRound.reveal_for_steal (s : WallRound) : Option Bool × WallRound :=
  if s.state ≠ .LOCKED_IN then (some false, s)
  else
    match s.active_wall with
    | none => (some false, s)
    | some w =>
        (some true,
         { s with active_wall := some w.start_confirm_next_group })

/-- `ConnectingWallState.score_team1`. -/
def WallRound.score_team1 (s : WallRound) : Option Bool × WallRound :=
  match s.active_wall with
  | none => (some false, s)
  | some w =>
      if s.state ≠ .LOCKED_IN ∨ w.confirming_group = none
          ∨ w.is_group_revealed then (some false, s)
      else
        match s.teams.get? 0 with
        | none => (none, s)
        | some old =>
            (some true, { s with
              teams := s.teams.set 0 (old + 1)
              active_wall := some { w with is_group_revealed := true } })

/-- `ConnectingWallState.score_team2`. -/
def WallRound.score_team2 (s : WallRound) : Option Bool × WallRound :=
  match s.active_wall with
  | none => (some false, s)
  | some w =>
      if s.state ≠ .LOCKED_IN ∨ w.confirming_group = none
          ∨ w.is_group_revealed then (some false, s)
      else
        match s.teams.get? 1 with
        | none => (none, s)
        | some old =>
            (some true, { s with
              teams := s.teams.set 1 (old + 1)
              active_wall := some { w with is_group_revealed := true } })

/-- `ConnectingWallState.score_incorrect`. -/
def WallRound.score_incorrect (s : WallRound) : Option Bool × WallRound :=
  match s.active_wall with
  | none => (some false, s)
  | some w =>
      if s.state ≠ .LOCKED_IN ∨ w.confirming_group = none
          ∨ w.is_group_revealed then (some false, s)
      else
        (some true,
         { s with active_wall := some { w with is_group_revealed := true } })

/-- `RoundHandler.do` specialised to `ConnectingWallState`.  `shuffled` is
the shuffle outcome used if the action starts a wall. -/
def WallRound.do_action (s : WallRound) (shuffled : List String) :
    PossibleActions → Option Bool × WallRound
  | .NEXT_QUESTION => s.next_question
  | .SELECT_TWO_REEDS => (some false, s)
  | .SELECT_LION => s.select_lion shuffled
  | .SELECT_TWISTED_FLAX => (some false, s)
  | .SELECT_HORNED_VIPER => (some false, s)
  | .SELECT_WATER => s.select_water shuffled
  | .SELECT_EYE_OF_HORUS => (some false, s)
  | .NEXT_CLUE => (some false, s)
  | .LOCK_IN => s.lock_in
  | .REVEAL_FOR_STEAL => s.reveal_for_steal
  | .SCORE_TEAM1 => s.score_team1
  | .SCORE_TEAM2 => s.score_team2
  | .SCORE_STEAL => (some false, s)
  | .SCORE_INCORRECT => s.score_incorrect
  | .START_NEXT_ROUND => (some false, s)

/-- The wall-phase operations of C6: `toggle` commands and the LOCK_IN
action (lock-in runs `reveal_wall`). -/
inductive WallOp where
  | toggle (word : String)
  | lockIn
deriving DecidableEq, Repr

/-- Run one wall operation on the round state. -/
def WallRound.runOp (s : WallRound) : WallOp → WallRound
  | .toggle word => s.toggle word
  | .lockIn => (s.lock_in).2

/-- Run a sequence of wall operations. -/
def WallRound.runOps (s : WallRound) (ops : List WallOp) : WallRound :=
  ops.foldl WallRound.runOp s

/-- The round state immediately after a wall has been selected: sub-state
QUESTION_ACTIVE with a freshly initialised `ActiveWall` (this is what
`select_lion` / `select_water` produce). -/
def wallPlayStart (teams : List Int) (active_team : Nat)
    (other : Option (List TextQ)) (wall : List TextQ)
    (shuffled : List String) : WallRound :=
  { teams := teams
    state := .QUESTION_ACTIVE
    available_walls := (none, other)
    active_team := active_team
    active_wall := some (ActiveWall.init wall shuffled) }

/-!
## Episode serialisation (`OnlyConnectEpisode.json` / `OnlyConnectEngine._load_data`)

`json.dumps`/`json.loads` round-trip JSON trees exactly, so serialisation is
embedded at the tree level.  For each section the loader distinguishes only
"a list is present" from "absent or not a list", so the serialised episode
stores `Option` per section (`none` covering both absent and non-list
values, which `isinstance(..., list)` treats alike).
-/

/-- The dictionary produced by `OnlyConnectQuestion.json()`. -/
structure QJson where
  question_type : String
  connection : String
  details : String
  elements : List JElem
deriving DecidableEq, Repr

/-- `OnlyConnectQuestion.json()`. -/
def OCQuestion.json (q : OCQuestion) : QJson :=
  ⟨q.question_type, q.connection, q.details, q.elements.map OCElement.json⟩

/-- `OnlyConnectQuestion.json()` for a wall (text) question: the
`question_type` is always `"text"` and the elements are strings. -/
def TextQ.json (q : TextQ) : QJson :=
  ⟨"text", q.connection, q.details, q.elements.map JElem.jstr⟩

/-- The dictionary produced by `MissingVowelsGroup.json()`: the `words` key
holds the `pairs` tuples `(index, answer, prompt, valid)`. -/
structure MVGroupJson where
  connection : String
  words : List (Nat × String × String × Bool)
deriving DecidableEq, Repr

/-- `MissingVowelsGroup.json()`. -/
def MVGroup.json (g : MVGroup) : MVGroupJson := ⟨g.connection, g.pairs⟩

/-- The four optional round sections of `OnlyConnectEpisode`. -/
structure OCEpisodeContent where
  connections_round : Option (List OCQuestion)
  completions_round : Option (List OCQuestion)
  connecting_walls : Option (List TextQ × List TextQ)
  missing_vowels : Option (List (Option MVGroup))
deriving DecidableEq, Repr

/-- The serialised episode blob (the output of `OnlyConnectEpisode.json()`,
which is also the shape `_load_data` consumes). -/
structure EpisodeJson where
  connections : Option (List QJson)
  completions : Option (List QJson)
  connecting_walls : Option (List (List QJson))
  missing_vowels : Option (List (Option MVGroupJson))
deriving DecidableEq, Repr

/-- `OnlyConnectEpisode.json()` (the four round sections; `title` and
`description` live on the base episode row). -/
def OCEpisodeContent.json (e : OCEpisodeContent) : EpisodeJson :=
  { connections := e.connections_round.map (fun qs => qs.map OCQuestion.json)
    completions := e.completions_round.map (fun qs => qs.map OCQuestion.json)
    connecting_walls := e.connecting_walls.map
      (fun w => [w.1.map TextQ.json, w.2.map TextQ.json])
    missing_vowels := e.missing_vowels.map
      (fun gs => gs.map (fun g => g.map MVGroup.json)) }

/-- A JSON element value stored back into a question's elements list:
strings stay strings, blob dictionaries stay raw dictionaries. -/
def loadElem : JElem → OCElement
  | .jstr s => .text s
  | .jobj d => .jdict d

/-- `OnlyConnectQuestion(**question)` applied to a serialised question. -/
def loadQuestion (q : QJson) : Option OCQuestion :=
  mkOCQuestion q.question_type q.connection q.details (q.elements.map loadElem)

/-- All elements of a serialised wall question, as the strings the
`OnlyConnectTextQuestion.elements : list[str]` annotation promises; `none`
if a non-string value occurs (outside the annotation, not modelled). -/
def allStrings : List JElem → Option (List String)
  | [] => some []
  | .jstr s :: rest => (allStrings rest).map (fun ss => s :: ss)
  | .jobj _ :: _ => none

/-- `OnlyConnectTextQuestion(**question)` applied to a serialised wall
question. -/
def loadTextQuestion (q : QJson) : Option TextQ :=
  if q.question_type ≠ "text" then none
  else if q.elements.length ≠ SLOTS_PER_CONNECTION then none
  else
    match allStrings q.elements with
    | none => none
    | some ss => some ⟨q.connection, q.details, ss⟩

/-- The generator `(OnlyConnectQuestion(**question) for question in ...)` as
consumed by `SixQuestions(...)`: loads questions in order, propagating the
first failure. -/
def loadQuestions : List QJson → Option (List OCQuestion)
  | [] => some []
  | q :: rest =>
      match loadQuestion q with
      | none => none
      | some l => (loadQuestions rest).map (fun ls => l :: ls)

/-- The generator consumed by `ConnectingWall(...)`. -/
def loadTextQuestions : List QJson → Option (List TextQ)
  | [] => some []
  | q :: rest =>
      match loadTextQuestion q with
      | none => none
      | some l => (loadTextQuestions rest).map (fun ls => l :: ls)

/-- `OnlyConnectQuestion.default()` as a serialised question. -/
def defaultQJson : QJson :=
  ⟨"text", "", "", [.jstr "", .jstr "", .jstr "", .jstr ""]⟩

/-- The `connections` block of `OnlyConnectEngine._load_data`: a present
list is extended with default questions up to 6 and installed; absent (or
non-list) leaves the episode alone; a bad question shape raises (`none`). -/
def load_connections (ep : OCEpisodeContent) (contents : EpisodeJson) :
    Option OCEpisodeContent :=
  match contents.connections with
  | none => some ep
  | some qs =>
      (loadQuestions (qs ++ List.replicate (QUESTIONS_PER_ROUND - qs.length)
          defaultQJson)).map
        (fun l => { ep with connections_round := some l })

/-- The `completions` block of `_load_data` (same shape as connections). -/
def load_completions (ep : OCEpisodeContent) (contents : EpisodeJson) :
    Option OCEpisodeContent :=
  match contents.completions with
  | none => some ep
  | some qs =>
      (loadQuestions (qs ++ List.replicate (QUESTIONS_PER_ROUND - qs.length)
          defaultQJson)).map
        (fun l => { ep with completions_round := some l })

/-- The `connecting_walls` block of `_load_data`: `walls[0]` / `walls[1]`
raise `IndexError` when missing. -/
def load_walls (ep : OCEpisodeContent) (contents : EpisodeJson) :
    Option OCEpisodeContent :=
  match contents.connecting_walls with
  | none => some ep
  | some walls =>
      match walls[0]?, walls[1]? with
      | some w0, some w1 =>
          match loadTextQuestions w0, loadTextQuestions w1 with
          | some l0, some l1 =>
              some { ep with connecting_walls := some (l0, l1) }
          | _, _ => none
      | _, _ => none

/-- One entry of the `missing_vowels` comprehension in `_load_data`:
`None` entries and groups with a falsy (empty) `words` list are skipped;
the rest are rebuilt with `MissingVowelsGroup(**group)` (and land in the
episode's `list[MissingVowelsGroup | None]` as present entries). -/
def loadMVGroup : Option MVGroupJson → Option (Option MVGroup)
  | none => none
  | some g =>
      if g.words = [] then none
      else some (some (mkMVGroup g.connection g.words))

/-- The `missing_vowels` block of `_load_data`. -/
def load_missing_vowels (ep : OCEpisodeContent) (contents : EpisodeJson) :
    OCEpisodeContent :=
  match contents.missing_vowels with
  | none => ep
  | some gs =>
      { ep with missing_vowels := some (gs.filterMap loadMVGroup) }

/-- `OnlyConnectEngine._load_data` applied to episode `ep`: the four section
blocks in source order.  `none` models an exception escaping
`_load_data`. -/
def load_data (ep : OCEpisodeContent) (contents : EpisodeJson) :
    Option OCEpisodeContent := do
  let ep1 ← load_connections ep contents
  let ep2 ← load_completions ep1 contents
  let ep3 ← load_walls ep2 contents
  pure (load_missing_vowels ep3 contents)

/-- A fresh `OnlyConnectEpisode` before `_load_data` runs: every round
section is `None`. -/
def emptyEpisode : OCEpisodeContent := ⟨none, none, none, none⟩

end Catbox

namespace Catbox

/-!
## Room idle tracking (`Room` in `room.py`)

Time is embedded as seconds (`Int`).  `await` points have no state effect
beyond the calls modelled here.
-/

/-- `TIMEOUT = datetime.timedelta(minutes=15)`, in seconds. -/
def ROOM_TIMEOUT : Int := 15 * 60

/-- The `Room` fields the idle logic uses: `_stopped` and `_ping`. -/
structure Room where
  stopped : Bool
  ping_deadline : Int
deriving DecidableEq, Repr

/-- `Room.ping`: no-op when stopped, otherwise deadline := now + 15 min. -/
def Room.ping (r : Room) (now : Int) : Room :=
  if r.stopped then r else { r with ping_deadline := now + ROOM_TIMEOUT }

/-- `Room.stop` (the part visible to the idle logic): sets `_stopped`. -/
def Room.stop (r : Room) : Room := { r with stopped := true }

/-- `Room.__init__`: `_stopped = False`, then `self.ping()`. -/
def Room.init (now : Int) : Room :=
  Room.ping { stopped := false, ping_deadline := 0 } now

/-- `Room.reap`: stops the room when the deadline has passed, and returns
`self._stopped` (the flag, not the deadline test). -/
def Room.reap (r : Room) (now : Int) : Bool × Room :=
  let r2 := if r.ping_deadline < now then r.stop else r
  (r2.stopped, r2)

/-- The room operations a caller can invoke on the idle logic. -/
inductive RoomOp where
  | ping (now : Int)
  | reap (now : Int)
  | stop
deriving DecidableEq, Repr

/-- Run one room operation. -/
def Room.runOp (r : Room) : RoomOp → Room
  | .ping now => r.ping now
  | .reap now => (r.reap now).2
  | .stop => r.stop

/-!
## Episode lifecycle (`GameEngine.save_state` in `engine/engine.py`)

The `EpisodeVersion` rows of one episode id are embedded as a list of
`(version, state)` pairs; the schema's `(episode_id, version)` uniqueness is
the `Nodup` hypothesis on the versions.
-/

/-- `EpisodeState` enum from `engine/episode.py`. -/
inductive EpisodeState where
  | DRAFT
  | PENDING_REVIEW
  | PUBLISHED
  | SUPERSEDED
  | DISCARDED
deriving DecidableEq, Repr

/-- `GameEngine.save_state(episode, state)` restricted to one episode id.
`mem_state` is the in-memory `episode.state` at call time (used by the first
UPDATE's WHERE clause).  After the first UPDATE the source assigns
`episode._status = state`, so the demotion UPDATE's `episode.state` is the
*new* state; it demotes every other version currently in the new state to
SUPERSEDED (when publishing) or DISCARDED (other non-terminal states), and
runs only when the new state is not DISCARDED/SUPERSEDED. -/
def save_state (db : List (Nat × EpisodeState)) (version : Nat)
    (mem_state new_state : EpisodeState) : List (Nat × EpisodeState) :=
  let db1 := db.map (fun row =>
    if row.1 = version ∧ row.2 = mem_state then (row.1, new_state) else row)
  if new_state = .DISCARDED ∨ new_state = .SUPERSEDED then db1
  else
    let demoted := if new_state = .PUBLISHED then EpisodeState.SUPERSEDED
      else EpisodeState.DISCARDED
    db1.map (fun row =>
      if row.2 = new_state ∧ row.1 ≠ version then (row.1, demoted) else row)

/-- Number of versions of the episode currently in state `st`. -/
def countState (db : List (Nat × EpisodeState)) (st : EpisodeState) : Nat :=
  db.countP (fun row => row.2 == st)

/-- A sequence of `save_state` calls: each entry is
`(version, in-memory state, new state)`. -/
def runCalls (db : List (Nat × EpisodeState))
    (calls : List (Nat × EpisodeState × EpisodeState)) :
    List (Nat × EpisodeState) :=
  calls.foldl (fun d c => save_state d c.1 c.2.1 c.2.2) db

end Catbox

namespace Catbox

/-- Observation of a standard-round `do` result used by the C1 theorem:
the returned boolean, team `n` score, team `1-n` score, sub-state and
revealed-clue counter. -/
def stdScoreObs (n : Nat) (r : Bool × StdRound) :
    Bool × Int × Int × InRoundState × Nat :=
  (r.1, r.2.teams.getD n 0, r.2.teams.getD (1 - n) 0,
   r.2.state, r.2.revealed_clues)

/-- C1: in sub-state LOCKED_IN with `revealed_clues = k` (`1 ≤ k ≤ 4`) and two
teams, `do(SCORE_TEAMn)` (`n ∈ {1,2}`, embedded as team index `n-1 < 2`)
returns true, credits team `n` with `[0,5,3,2,1][k]` points, leaves the other
team's score unchanged, sets the sub-state to ANSWER_REVEALED and sets
`revealed_clues` to 4. -/
theorem std_score_team_locked_in (s : StdRound) (k n : Nat)
    (hstate : s.state = .LOCKED_IN) (hk : s.revealed_clues = k)
    (hk1 : 1 ≤ k) (hk4 : k ≤ 4) (hn : n < 2) (ht : s.teams.length = 2) :
    (s.do_action (if n = 0 then .SCORE_TEAM1 else .SCORE_TEAM2)).map
        (stdScoreObs n)
      = some (true, s.teams.getD n 0 + stdScoreTable.getD k 0,
              s.teams.getD (1 - n) 0, .ANSWER_REVEALED, 4) := by
  obtain ⟨t, st, act, dat, av, cq, rc, mr⟩ := s
  simp only at hstate hk ht
  subst hstate
  obtain ⟨a, b, hab⟩ := List.length_eq_two.mp ht
  subst hab
  interval_cases n <;> interval_cases k <;> subst hk <;>
    simp [StdRound.do_action, StdRound.score_team1, StdRound.score_team2,
      StdRound.score, stdScoreObs, stdScoreTable, SLOTS_PER_CONNECTION]

/-- `pyUpperCode` is idempotent. -/
theorem pyUpperCode_idem (c : Nat) :
    pyUpperCode (pyUpperCode c) = pyUpperCode c := by
  unfold pyUpperCode
  split
  · split <;> omega
  · rfl

/-- `pyUpperCode` maps 32, and only 32, to 32. -/
theorem pyUpperCode_eq_32 (c : Nat) : pyUpperCode c = 32 ↔ c = 32 := by
  unfold pyUpperCode
  split <;> omega

/-- Removing spaces commutes with ASCII upper-casing. -/
theorem removeSpaces_pyUpper (s : List Nat) :
    removeSpacesCodes (pyUpperCodes s) = pyUpperCodes (removeSpacesCodes s) := by
  unfold removeSpacesCodes pyUpperCodes
  rw [List.filter_map pyUpperCode s]
  congr 1
  apply List.filter_congr
  intro c _
  simp only [Function.comp_apply]
  by_cases hc : c = 32
  · subst hc; rfl
  · have h1 : pyUpperCode c ≠ 32 := fun hh => hc ((pyUpperCode_eq_32 c).mp hh)
    have e1 : (pyUpperCode c != 32) = true := by simp [h1]
    have e2 : (c != 32) = true := by simp [hc]
    rw [e1, e2]

/-- Space insertion in `generate_prompt` does not change the space-free
residue of the prompt. -/
theorem removeSpaces_insertSpaces (strides : List Nat) (p : List Nat) (x : Nat) :
    removeSpacesCodes (insertSpaces p x strides) = removeSpacesCodes p := by
  induction strides generalizing p x with
  | nil => rfl
  | cons s rest ih =>
    unfold insertSpaces
    split
    · rw [ih]
      unfold removeSpacesCodes
      conv_rhs => rw [← List.take_append_drop (x + s) p]
      rw [List.filter_append, List.filter_append, List.filter_cons]
      simp
    · rfl

/-- Elements of an `insertSpaces` result are elements of the input or
spaces. -/
theorem mem_insertSpaces (strides : List Nat) (p : List Nat) (x : Nat)
    (c : Nat) (h : c ∈ insertSpaces p x strides) : c ∈ p ∨ c = 32 := by
  induction strides generalizing p x with
  | nil => exact Or.inl h
  | cons s rest ih =>
    unfold insertSpaces at h
    split at h
    · rcases ih _ _ h with h1 | h1
      · rcases List.mem_append.mp h1 with h2 | h2
        · exact Or.inl ((List.take_sublist _ _).mem h2)
        · rcases List.mem_cons.mp h2 with h3 | h3
          · exact Or.inr h3
          · exact Or.inl ((List.drop_sublist _ _).mem h3)
      · exact Or.inr h1
    · exact Or.inl h

/-- Dropping a whitespace run does not change the space-free residue,
provided every whitespace character of the string is an actual space. -/
theorem removeSpaces_dropWhile (l : List Nat)
    (h : ∀ c ∈ l, pyIsSpaceCode c = true → c = 32) :
    removeSpacesCodes (l.dropWhile pyIsSpaceCode) = removeSpacesCodes l := by
  induction l with
  | nil => rfl
  | cons a as ih =>
    rw [List.dropWhile_cons]
    by_cases ha : pyIsSpaceCode a = true
    · have ha32 : a = 32 := h a (List.mem_cons_self a as) ha
      subst ha32
      rw [if_pos ha, ih (fun c hc hsp => h c (List.mem_cons_of_mem _ hc) hsp)]
      unfold removeSpacesCodes
      rw [List.filter_cons]
      simp
    · rw [if_neg ha]

/-- `str.strip` does not change the space-free residue, provided every
whitespace character of the string is an actual space. -/
theorem removeSpaces_pyStrip (l : List Nat)
    (h : ∀ c ∈ l, pyIsSpaceCode c = true → c = 32) :
    removeSpacesCodes (pyStripCodes l) = removeSpacesCodes l := by
  have hrev : ∀ (m : List Nat), removeSpacesCodes m.reverse
      = (removeSpacesCodes m).reverse := by
    intro m
    unfold removeSpacesCodes
    exact List.filter_reverse _ m
  have h1 : ∀ c ∈ (l.dropWhile pyIsSpaceCode).reverse,
      pyIsSpaceCode c = true → c = 32 := by
    intro c hc
    exact h c ((List.dropWhile_sublist pyIsSpaceCode).mem
      (List.mem_reverse.mp hc))
  unfold pyStripCodes
  rw [hrev, removeSpaces_dropWhile _ h1, hrev,
    removeSpaces_dropWhile _ h, List.reverse_reverse]

/-- The vowel-and-space-free residue of an upper-cased answer contains no
spaces and is already upper case. -/
theorem subVowelsSpaces_pyUpper_fixed (A : List Nat) :
    removeSpacesCodes (subVowelsSpaces (pyUpperCodes A))
        = subVowelsSpaces (pyUpperCodes A)
      ∧ pyUpperCodes (subVowelsSpaces (pyUpperCodes A))
        = subVowelsSpaces (pyUpperCodes A) := by
  constructor
  · apply List.filter_eq_self.mpr
    intro c hc
    have hflt := (List.mem_filter.mp hc).2
    simp only [bne_iff_ne, ne_eq]
    intro hh
    rw [hh] at hflt
    exact absurd hflt (by decide)
  · have h2 : ∀ c ∈ subVowelsSpaces (pyUpperCodes A), pyUpperCode c = c := by
      intro c hc
      have hmem := (List.mem_filter.mp hc).1
      obtain ⟨a, _, rfl⟩ := List.mem_map.mp hmem
      exact pyUpperCode_idem a
    exact (List.map_congr_left h2).trans (List.map_id _)

/-- C9: for every answer containing only ASCII letters and spaces and every
outcome of the random stride draws inside `generate_prompt`,
`check_valid(generate_prompt(answer), answer)` returns true. -/
theorem mv_check_valid_generate_prompt (answer strides : List Nat)
    (h : ∀ c ∈ answer, (65 ≤ c ∧ c ≤ 90) ∨ (97 ≤ c ∧ c ≤ 122) ∨ c = 32) :
    check_valid_codes (generate_prompt_codes strides answer) answer = true := by
  have hstripped : ∀ c ∈ subVowelsSpaces (pyUpperCodes answer),
      65 ≤ c ∧ c ≤ 90 := by
    intro c hc
    obtain ⟨hmem, hflt⟩ := List.mem_filter.mp hc
    obtain ⟨a, ha, rfl⟩ := List.mem_map.mp hmem
    have hne : pyUpperCode a ≠ 32 := by
      intro hh
      rw [hh] at hflt
      exact absurd hflt (by decide)
    rcases h a ha with hcase | hcase | hcase
    · unfold pyUpperCode; split <;> omega
    · unfold pyUpperCode; split <;> omega
    · subst hcase; exact absurd rfl hne
  have hws : ∀ c ∈ insertSpaces (subVowelsSpaces (pyUpperCodes answer)) 0 strides,
      pyIsSpaceCode c = true → c = 32 := by
    intro c hc hsp
    rcases mem_insertSpaces _ _ _ _ hc with hc1 | hc1
    · have := hstripped c hc1
      simp only [pyIsSpaceCode, Bool.or_eq_true, decide_eq_true_eq] at hsp
      omega
    · exact hc1
  unfold check_valid_codes generate_prompt_codes
  rw [removeSpaces_pyUpper, removeSpaces_pyStrip _ hws,
    removeSpaces_insertSpaces, (subVowelsSpaces_pyUpper_fixed answer).1,
    (subVowelsSpaces_pyUpper_fixed answer).2, beq_self_eq_true]

/-- Witness for `mv_check_valid_generate_prompt`: the answer "HELLO WORLD"
(codes) with stride draws 2 and 3. -/
theorem mv_check_valid_generate_prompt_witness :
    check_valid_codes
      (generate_prompt_codes [2, 3]
        [72, 69, 76, 76, 79, 32, 87, 79, 82, 76, 68])
      [72, 69, 76, 76, 79, 32, 87, 79, 82, 76, 68] = true :=
  mv_check_valid_generate_prompt _ [2, 3] (by decide)

/-- Helper for C3: the missing vowels handler silently ignores every action
that is not in `possible_actions`. -/
theorem mv_unoffered_silently_ignored (s : MVState) (a : PossibleActions)
    (h : a ∉ s.possible_actions) : s.do_action a = some (false, s) := by
  cases a <;> cases hs : s.state <;>
    simp_all [MVState.possible_actions, MVState.do_action,
      MVState.next_question, MVState.score_team1, MVState.score_team2,
      MVState.score_incorrect]

/-- The six question-selection actions. -/
def selectActions : List PossibleActions :=
  [.SELECT_TWO_REEDS, .SELECT_LION, .SELECT_TWISTED_FLAX,
   .SELECT_HORNED_VIPER, .SELECT_WATER, .SELECT_EYE_OF_HORUS]

/-- Helper for C3: the standard round handler silently ignores every
non-offered action, except the known enforcement gaps (REVEAL_FOR_STEAL,
selection during QUESTION_SELECTION, and the scoring actions during
LOCKED_IN). -/
theorem std_unoffered_silently_ignored (s : StdRound) (a : PossibleActions)
    (h : a ∉ s.possible_actions)
    (h1 : a ≠ .REVEAL_FOR_STEAL)
    (h2 : ¬ (s.state = .QUESTION_SELECTION ∧ a ∈ selectActions))
    (h3 : ¬ (s.state = .LOCKED_IN
        ∧ a ∈ ([.SCORE_TEAM1, .SCORE_TEAM2, .SCORE_INCORRECT]
            : List PossibleActions))) :
    s.do_action a = some (false, s) := by
  cases a <;> cases hs : s.state <;>
    simp_all [StdRound.possible_actions, StdRound.do_action, selectActions,
      StdRound.next_question, StdRound.select, StdRound.next_clue,
      StdRound.lock_in, StdRound.score_team1, StdRound.score_team2,
      StdRound.score, StdRound.score_steal, StdRound.score_incorrect]

/-- Helper for C3: the connecting wall handler silently ignores every
non-offered action, except the known enforcement gaps (wall selection during
QUESTION_SELECTION, and NEXT_QUESTION / REVEAL_FOR_STEAL / SCORE_TEAMn
during LOCKED_IN). -/
theorem wall_unoffered_silently_ignored (s : WallRound)
    (shuffled : List String) (a : PossibleActions)
    (h : a ∉ s.possible_actions)
    (h2 : ¬ (s.state = .QUESTION_SELECTION
        ∧ (a = .SELECT_LION ∨ a = .SELECT_WATER)))
    (h3 : ¬ (s.state = .LOCKED_IN
        ∧ (a = .NEXT_QUESTION ∨ a = .REVEAL_FOR_STEAL
            ∨ a = .SCORE_TEAM1 ∨ a = .SCORE_TEAM2))) :
    s.do_action shuffled a = (some false, s) := by
  cases a <;> cases hs : s.state <;> cases hw : s.active_wall <;>
    simp_all [WallRound.possible_actions, WallRound.do_action,
      WallRound.next_question, WallRound.select_lion, WallRound.select_water,
      WallRound.lock_in, WallRound.reveal_for_steal, WallRound.score_team1,
      WallRound.score_team2, WallRound.score_incorrect]
  rename_i w
  intro _
  by_cases hr : w.is_group_revealed = true
  · exact hr
  · simp [hr] at h

/-- A concrete standard round state in PRE_ROUND, used to exhibit the
missing sub-state guard of `reveal_for_steal`. -/
def stdPreRoundState : StdRound :=
  { teams := [0, 0]
    state := .PRE_ROUND
    active_team := 1
    data := []
    available := [some .SELECT_TWO_REEDS, some .SELECT_LION,
      some .SELECT_TWISTED_FLAX, some .SELECT_HORNED_VIPER,
      some .SELECT_WATER, some .SELECT_EYE_OF_HORUS]
    current_question := defaultOCQuestion
    revealed_clues := 0
    max_revealed := 4 }

/-- C3 counterexample: in the standard round's PRE_ROUND sub-state the
action REVEAL_FOR_STEAL is not permitted, yet `do` returns true and moves
the sub-state to STEALING (with `revealed_clues` forced to `max_revealed`),
because `StandardRoundState.reveal_for_steal` performs no sub-state check.
This refutes the claim that every non-permitted action returns false and
leaves the round state unchanged. -/
theorem std_reveal_for_steal_not_ignored :
    PossibleActions.REVEAL_FOR_STEAL ∉ stdPreRoundState.possible_actions
      ∧ stdPreRoundState.do_action .REVEAL_FOR_STEAL
          = some (true, { stdPreRoundState with
              state := .STEALING, revealed_clues := 4 })
      ∧ (stdPreRoundState.do_action .REVEAL_FOR_STEAL).map
          (fun r => r.2.state) ≠ some stdPreRoundState.state := by
  refine ⟨by decide, rfl, by decide⟩

/-- C3 (amended): each Only Connect round handler returns false and leaves
its state (scores included) unchanged for every action not offered by
`possible_actions`, with these exceptions in the source: the standard
round's REVEAL_FOR_STEAL (no guard at all), SELECT_* during
QUESTION_SELECTION and SCORE_TEAM1/SCORE_TEAM2/SCORE_INCORRECT during
LOCKED_IN; and the wall round's SELECT_LION/SELECT_WATER during
QUESTION_SELECTION and NEXT_QUESTION/REVEAL_FOR_STEAL/SCORE_TEAM1/
SCORE_TEAM2 during LOCKED_IN.  The missing vowels handler has no
exception. -/
theorem round_handlers_ignore_unoffered_actions :
    (∀ (s : MVState) (a : PossibleActions), a ∉ s.possible_actions →
        s.do_action a = some (false, s))
    ∧ (∀ (s : StdRound) (a : PossibleActions), a ∉ s.possible_actions →
        a ≠ .REVEAL_FOR_STEAL →
        ¬ (s.state = .QUESTION_SELECTION ∧ a ∈ selectActions) →
        ¬ (s.state = .LOCKED_IN
            ∧ a ∈ ([.SCORE_TEAM1, .SCORE_TEAM2, .SCORE_INCORRECT]
                : List PossibleActions)) →
        s.do_action a = some (false, s))
    ∧ (∀ (s : WallRound) (shuffled : List String) (a : PossibleActions),
        a ∉ s.possible_actions →
        ¬ (s.state = .QUESTION_SELECTION
            ∧ (a = .SELECT_LION ∨ a = .SELECT_WATER)) →
        ¬ (s.state = .LOCKED_IN
            ∧ (a = .NEXT_QUESTION ∨ a = .REVEAL_FOR_STEAL
                ∨ a = .SCORE_TEAM1 ∨ a = .SCORE_TEAM2)) →
        s.do_action shuffled a = (some false, s)) :=
  ⟨mv_unoffered_silently_ignored, std_unoffered_silently_ignored,
   wall_unoffered_silently_ignored⟩

/-- Witness for `round_handlers_ignore_unoffered_actions` at concrete
states: LOCK_IN is not offered in any of the three handlers' PRE_ROUND
states and is silently ignored. -/
theorem round_handlers_ignore_unoffered_actions_witness :
    (MVState.init [0, 0] []).do_action .LOCK_IN
        = some (false, MVState.init [0, 0] [])
      ∧ stdPreRoundState.do_action .LOCK_IN = some (false, stdPreRoundState)
      ∧ (WallRound.init [0, 0] ([], [])).do_action [] .LOCK_IN
        = (some false, WallRound.init [0, 0] ([], [])) :=
  ⟨round_handlers_ignore_unoffered_actions.1 _ _ (by decide),
   round_handlers_ignore_unoffered_actions.2.1 _ _ (by decide) (by decide)
     (by decide) (by decide),
   round_handlers_ignore_unoffered_actions.2.2 _ _ _ (by decide) (by decide)
     (by decide)⟩

/-- A vowel group with no valid pair: the prompt "X" does not match the
answer "B". -/
def mvBadGroup : MVGroup := ⟨"letters", [some ("B", "X")]⟩

/-- C5 (code evaluated at the failing input): `MissingVowelsState.__init__`
keeps a group that has no valid `(answer, prompt)` pair, because the source
filter `if group.valid_pairs` tests the truthiness of a generator object,
which is always true.  The claim (and the spec) say such a group is
excluded. -/
theorem mv_init_keeps_group_without_valid_pairs :
    (MVState.init [0, 0] [mvBadGroup]).questions = [mvBadGroup]
      ∧ mvBadGroup.valid_pairs = [] := by
  exact ⟨rfl, rfl⟩

/-- Whether an element is a live `Blob` reference. -/
def OCElement.isBlobRef : OCElement → Bool
  | .blobRef _ => true
  | _ => false

/-- Loading the serialised form of an element that is not a live `Blob`
reference gives the element back (a blob reference comes back as its raw
JSON dictionary instead). -/
theorem loadElem_json (e : OCElement) (h : e.isBlobRef = false) :
    loadElem e.json = e := by
  cases e <;> simp_all [OCElement.isBlobRef, OCElement.json, loadElem]

/-- A question whose serialised form the engine rebuilds verbatim: a legal
type, exactly 4 elements, none of them a live blob reference. -/
def loadableQ (q : OCQuestion) : Prop :=
  (q.question_type = "text" ∨ q.question_type = "media")
    ∧ q.elements.length = SLOTS_PER_CONNECTION
    ∧ ∀ e ∈ q.elements, e.isBlobRef = false

instance (q : OCQuestion) : Decidable (loadableQ q) := by
  unfold loadableQ
  infer_instance

/-- Rebuilding a loadable question from its serialised form. -/
theorem loadQuestion_json (q : OCQuestion) (h : loadableQ q) :
    loadQuestion q.json = some q := by
  obtain ⟨qt, qc, qd, qe⟩ := q
  obtain ⟨ht, hlen, helts⟩ := h
  simp only at ht hlen helts
  have he : qe.map (loadElem ∘ OCElement.json) = qe :=
    (List.map_congr_left (fun e hme => loadElem_json e (helts e hme))).trans
      (List.map_id qe)
  unfold loadQuestion OCQuestion.json mkOCQuestion
  rw [List.map_map, he]
  rcases ht with ht | ht <;> subst ht <;> simp [hlen]

/-- `allStrings` inverts the string-element serialisation. -/
theorem allStrings_map_jstr (ss : List String) :
    allStrings (ss.map JElem.jstr) = some ss := by
  induction ss with
  | nil => rfl
  | cons s rest ih => simp [allStrings, ih]

/-- Rebuilding a wall question with 4 clues from its serialised form. -/
theorem loadTextQuestion_json (g : TextQ)
    (h : g.elements.length = SLOTS_PER_CONNECTION) :
    loadTextQuestion g.json = some g := by
  obtain ⟨gc, gd, ge⟩ := g
  simp_all [loadTextQuestion, TextQ.json, allStrings_map_jstr]

/-- Loading the serialised forms of loadable questions rebuilds them. -/
theorem loadQuestions_map_json (qs : List OCQuestion)
    (h : ∀ q ∈ qs, loadableQ q) :
    loadQuestions (qs.map OCQuestion.json) = some qs := by
  induction qs with
  | nil => rfl
  | cons q rest ih =>
      simp [loadQuestions, loadQuestion_json q (h q (List.mem_cons_self q rest)),
        ih (fun b hb => h b (List.mem_cons_of_mem q hb))]

/-- Loading the serialised forms of 4-clue wall questions rebuilds them. -/
theorem loadTextQuestions_map_json (qs : List TextQ)
    (h : ∀ q ∈ qs, q.elements.length = SLOTS_PER_CONNECTION) :
    loadTextQuestions (qs.map TextQ.json) = some qs := by
  induction qs with
  | nil => rfl
  | cons q rest ih =>
      simp [loadTextQuestions,
        loadTextQuestion_json q (h q (List.mem_cons_self q rest)),
        ih (fun b hb => h b (List.mem_cons_of_mem q hb))]

/-- The `pairs` tuples of a group whose entries are all present rebuild the
original `words` list when only the answer/prompt components are kept. -/
theorem pairs_map_back (ws : List (Option (String × String)))
    (h : ∀ w ∈ ws, w.isSome = true) : ∀ n : Nat,
    ((List.enumFrom n ws).filterMap
      (fun p => p.2.map (fun x => (p.1, x.1, x.2, check_valid x.2 x.1)))).map
      (fun w => some (w.2.1, w.2.2.1)) = ws := by
  induction ws with
  | nil => intro n; rfl
  | cons w rest ih =>
      intro n
      cases w with
      | none =>
          exact absurd (h none (List.mem_cons_self none rest)) (by simp)
      | some x =>
          have := ih (fun b hb => h b (List.mem_cons_of_mem (some x) hb))
            (n + 1)
          simp [List.enumFrom, this]

/-- A vowel group with a non-empty, fully present `words` list serialises to
a non-empty `words` key and rebuilds to itself. -/
theorem mvgroup_roundtrip (g : MVGroup) (hne : g.words ≠ [])
    (hsome : ∀ w ∈ g.words, w.isSome = true) :
    g.json.words ≠ [] ∧ mkMVGroup g.json.connection g.json.words = g := by
  obtain ⟨c, ws⟩ := g
  simp only at hne hsome
  have hb := pairs_map_back ws hsome 0
  constructor
  · intro hnil
    apply hne
    have : MVGroup.pairs ⟨c, ws⟩ = [] := hnil
    rw [MVGroup.pairs, List.enum] at this
    rw [← hb, this]
    rfl
  · show mkMVGroup c (MVGroup.pairs ⟨c, ws⟩) = ⟨c, ws⟩
    unfold mkMVGroup
    rw [MVGroup.pairs, List.enum]
    exact congrArg (MVGroup.mk c) hb

/-- `load_completions` never touches the connections section. -/
theorem load_completions_keeps (ep : OCEpisodeContent)
    (contents : EpisodeJson) (res : OCEpisodeContent)
    (h : load_completions ep contents = some res) :
    res.connections_round = ep.connections_round := by
  unfold load_completions at h
  split at h
  · cases h; rfl
  · rcases Option.map_eq_some'.mp h with ⟨l, _, hl⟩
    rw [← hl]

/-- `load_walls` never touches the connections section. -/
theorem load_walls_keeps (ep : OCEpisodeContent) (contents : EpisodeJson)
    (res : OCEpisodeContent) (h : load_walls ep contents = some res) :
    res.connections_round = ep.connections_round := by
  unfold load_walls at h
  split at h
  · cases h; rfl
  · split at h
    · split at h
      · cases h; rfl
      · exact absurd h (by simp)
    · exact absurd h (by simp)

/-- `load_missing_vowels` never touches the connections section. -/
theorem load_missing_vowels_keeps (ep : OCEpisodeContent)
    (contents : EpisodeJson) :
    (load_missing_vowels ep contents).connections_round
      = ep.connections_round := by
  unfold load_missing_vowels
  cases contents.missing_vowels <;> rfl

/-- Rebuilding a serialised list element-by-element. -/
theorem filterMap_map_roundtrip {α β : Type} (f : β → Option α) (g : α → β)
    (l : List α) (h : ∀ a ∈ l, f (g a) = some a) :
    (l.map g).filterMap f = l := by
  induction l with
  | nil => rfl
  | cons a rest ih =>
      simp [List.filterMap_cons, h a (List.mem_cons_self a rest),
        ih (fun b hb => h b (List.mem_cons_of_mem a hb))]

/-- Well-formedness of a serialisable connections/completions section:
exactly 6 questions, each with a legal type, 4 elements and no live blob
reference among them. -/
def sectionQsOk : Option (List OCQuestion) → Prop
  | none => True
  | some qs => qs.length = QUESTIONS_PER_ROUND ∧ ∀ q ∈ qs, loadableQ q

instance (o : Option (List OCQuestion)) : Decidable (sectionQsOk o) := by
  cases o <;> unfold sectionQsOk <;> infer_instance

/-- Well-formedness of a serialisable connecting-walls section: every group
has exactly 4 clues. -/
def wallsOk : Option (List TextQ × List TextQ) → Prop
  | none => True
  | some w => (∀ g ∈ w.1, g.elements.length = SLOTS_PER_CONNECTION)
      ∧ (∀ g ∈ w.2, g.elements.length = SLOTS_PER_CONNECTION)

instance (o : Option (List TextQ × List TextQ)) : Decidable (wallsOk o) := by
  cases o <;> unfold wallsOk <;> infer_instance

/-- Well-formedness of a serialisable missing-vowels section: every group is
present (not `None`) and has a non-empty `words` list with no deleted
entries. -/
def mvOk : Option (List (Option MVGroup)) → Prop
  | none => True
  | some gs => ∀ g ∈ gs,
      match g with
      | none => False
      | some gg => gg.words ≠ [] ∧ ∀ wd ∈ gg.words, wd.isSome = true

instance (o : Option (List (Option MVGroup))) : Decidable (mvOk o) := by
  cases o with
  | none => exact .isTrue trivial
  | some gs =>
      unfold mvOk
      have : ∀ g : Option MVGroup, Decidable (match g with
          | none => False
          | some gg => gg.words ≠ [] ∧ ∀ wd ∈ gg.words, wd.isSome = true) := by
        intro g
        cases g <;> infer_instance
      exact List.decidableBAll _ gs

/-- C4 (amended): rebuilding an episode from its serialised form reproduces
all four round sections, including absent sections remaining absent,
provided no clue element is a live blob reference (such elements reload as
their raw JSON dictionaries instead, see the counterexample) and every
missing-vowels group is present with a non-empty, fully present word
list. -/
theorem episode_serialise_roundtrip (E : OCEpisodeContent)
    (hconn : sectionQsOk E.connections_round)
    (hcomp : sectionQsOk E.completions_round)
    (hwall : wallsOk E.connecting_walls)
    (hmv : mvOk E.missing_vowels) :
    load_data emptyEpisode E.json = some E := by
  obtain ⟨c, p, w, m⟩ := E
  simp only at hconn hcomp hwall hmv
  have h1 : load_connections emptyEpisode
      (OCEpisodeContent.json ⟨c, p, w, m⟩) = some ⟨c, none, none, none⟩ := by
    cases c with
    | none => rfl
    | some qs =>
        obtain ⟨hlen, hload⟩ := hconn
        simp [load_connections, OCEpisodeContent.json, hlen,
          loadQuestions_map_json qs hload, emptyEpisode]
  have h2 : load_completions ⟨c, none, none, none⟩
      (OCEpisodeContent.json ⟨c, p, w, m⟩) = some ⟨c, p, none, none⟩ := by
    cases p with
    | none => rfl
    | some qs =>
        obtain ⟨hlen, hload⟩ := hcomp
        simp [load_completions, OCEpisodeContent.json, hlen,
          loadQuestions_map_json qs hload]
  have h3 : load_walls ⟨c, p, none, none⟩
      (OCEpisodeContent.json ⟨c, p, w, m⟩) = some ⟨c, p, w, none⟩ := by
    cases w with
    | none => rfl
    | some ws =>
        obtain ⟨hw1, hw2⟩ := hwall
        simp [load_walls, OCEpisodeContent.json,
          loadTextQuestions_map_json ws.1 hw1,
          loadTextQuestions_map_json ws.2 hw2]
  have h4 : load_missing_vowels ⟨c, p, w, none⟩
      (OCEpisodeContent.json ⟨c, p, w, m⟩) = ⟨c, p, w, m⟩ := by
    cases m with
    | none => rfl
    | some gs =>
        simp only [load_missing_vowels, OCEpisodeContent.json]
        have hgs : (gs.map (fun g => g.map MVGroup.json)).filterMap
            loadMVGroup = gs := by
          apply filterMap_map_roundtrip
          intro a ha
          have hga := hmv a ha
          cases a with
          | none => exact absurd hga (by simp)
          | some gg =>
              obtain ⟨hne, hsome⟩ := hga
              obtain ⟨hjne, hjeq⟩ := mvgroup_roundtrip gg hne hsome
              simp [loadMVGroup, hjne, hjeq]
        simp [hgs]
  simp [load_data, h1, h2, h3, h4]

/-- A media question holding a live blob reference (valid by the content
model's own `valid` predicate). -/
def blobQ : OCQuestion :=
  ⟨"media", "paintings", "",
   [.blobRef ⟨"abc", "image/png", 1, 2⟩, .text "b", .text "c", .text "d"]⟩

/-- A plain valid text question. -/
def plainQ : OCQuestion :=
  ⟨"text", "conn", "", [.text "a", .text "b", .text "c", .text "d"]⟩

/-- An episode whose connections round contains a blob-reference clue. -/
def blobEpisode : OCEpisodeContent :=
  ⟨some [blobQ, plainQ, plainQ, plainQ, plainQ, plainQ], none, none, none⟩

/-- C4 counterexample: a well-formed episode (its six connections questions
all satisfy the model's `valid` predicate) containing a blob-reference clue
does not round-trip: the engine rebuilds the blob as its raw JSON
dictionary, so the rebuilt content differs from the original. -/
theorem episode_roundtrip_blob_not_reproduced :
    (blobEpisode.connections_round.map
        (fun qs => qs.all OCQuestion.valid) = some true)
      ∧ load_data emptyEpisode blobEpisode.json
          = some ⟨some [{ blobQ with elements :=
              [.jdict ⟨"abc", "image/png", 1, 2, "/blob/abc"⟩,
               .text "b", .text "c", .text "d"] },
              plainQ, plainQ, plainQ, plainQ, plainQ], none, none, none⟩
      ∧ load_data emptyEpisode blobEpisode.json ≠ some blobEpisode := by
  refine ⟨rfl, rfl, by decide⟩

/-- A 4-clue wall question for the round-trip witness. -/
def wallQ : TextQ := ⟨"w", "", ["a", "b", "c", "d"]⟩

/-- A concrete well-formed episode exercising all four sections. -/
def witnessEpisode : OCEpisodeContent :=
  ⟨some [plainQ, plainQ, plainQ, plainQ, plainQ, plainQ],
   none,
   some ([wallQ, wallQ, wallQ, wallQ], [wallQ, wallQ, wallQ, wallQ]),
   some [some ⟨"group", [some ("ABC", "BC")]⟩]⟩

/-- Witness for `episode_serialise_roundtrip` at a concrete episode. -/
theorem episode_serialise_roundtrip_witness :
    load_data emptyEpisode witnessEpisode.json = some witnessEpisode :=
  episode_serialise_roundtrip witnessEpisode (by decide) (by decide)
    (by decide) (by decide)

/-- `loadQuestions` over a concatenation. -/
theorem loadQuestions_append (l1 l2 : List QJson) :
    loadQuestions (l1 ++ l2) = (loadQuestions l1).bind
      (fun a => (loadQuestions l2).map (fun b => a ++ b)) := by
  induction l1 with
  | nil =>
      cases h : loadQuestions l2 <;> simp [loadQuestions, h]
  | cons q rest ih =>
      cases hq : loadQuestion q with
      | none => simp [loadQuestions, hq]
      | some l =>
          simp only [List.cons_append, loadQuestions, hq, ih]
          cases h2 : loadQuestions rest <;> cases h3 : loadQuestions l2 <;>
            simp [ih, h2, h3]

/-- Loading a run of default questions. -/
theorem loadQuestions_replicate_default (k : Nat) :
    loadQuestions (List.replicate k defaultQJson)
      = some (List.replicate k defaultOCQuestion) := by
  induction k with
  | zero => rfl
  | succ n ih =>
      simp [List.replicate, loadQuestions, ih,
        show loadQuestion defaultQJson = some defaultOCQuestion from rfl]

/-- C7 (amended): rebuilding an episode from a stored blob treats an absent
(or non-list) connections section as "round disabled" (the field is left
alone), but a present list is never rejected for its length: the loaded
questions are padded with default questions up to 6 and installed. -/
theorem load_data_absent_vs_present :
    (∀ (ep : OCEpisodeContent) (contents : EpisodeJson)
        (res : OCEpisodeContent),
        load_data ep contents = some res → contents.connections = none →
        res.connections_round = ep.connections_round)
      ∧ (∀ (ep : OCEpisodeContent) (contents : EpisodeJson)
          (qs : List QJson) (lqs : List OCQuestion) (res : OCEpisodeContent),
          load_data ep contents = some res →
          contents.connections = some qs →
          loadQuestions qs = some lqs →
          res.connections_round = some (lqs ++ List.replicate
            (QUESTIONS_PER_ROUND - qs.length) defaultOCQuestion)) := by
  have hchain : ∀ (ep : OCEpisodeContent) (contents : EpisodeJson)
      (res : OCEpisodeContent), load_data ep contents = some res →
      ∃ ep1, load_connections ep contents = some ep1
        ∧ res.connections_round = ep1.connections_round := by
    intro ep contents res h
    simp only [load_data, bind, Option.bind_eq_some, pure,
      Option.some_inj] at h
    obtain ⟨ep1, h1, ep2, h2, ep3, h3, h4⟩ := h
    refine ⟨ep1, h1, ?_⟩
    rw [← h4, load_missing_vowels_keeps, load_walls_keeps _ _ _ h3,
      load_completions_keeps _ _ _ h2]
  constructor
  · intro ep contents res h hc
    obtain ⟨ep1, h1, hres⟩ := hchain ep contents res h
    unfold load_connections at h1
    rw [hc] at h1
    cases h1
    exact hres
  · intro ep contents qs lqs res h hc hl
    obtain ⟨ep1, h1, hres⟩ := hchain ep contents res h
    unfold load_connections at h1
    rw [hc] at h1
    rcases Option.map_eq_some'.mp h1 with ⟨l, hl2, hep1⟩
    rw [loadQuestions_append, hl, loadQuestions_replicate_default] at hl2
    have hleq : lqs ++ List.replicate (QUESTIONS_PER_ROUND - qs.length)
        defaultOCQuestion = l := Option.some_inj.mp hl2
    rw [hres, ← hep1, ← hleq]

/-- C7 counterexample: a present connections list of length 0 (≠ 6) is not
rejected — `_load_data` pads it with six default questions and installs the
section. -/
theorem empty_connections_list_installed :
    load_data emptyEpisode ⟨some [], none, none, none⟩
        = some ⟨some (List.replicate 6 defaultOCQuestion), none, none, none⟩
      ∧ (some (List.replicate 6 defaultOCQuestion)
          : Option (List OCQuestion)) ≠ none := by
  refine ⟨rfl, by decide⟩

/-- Witness for `load_data_absent_vs_present` at concrete inputs. -/
theorem load_data_absent_vs_present_witness :
    ((⟨some (List.replicate 6 defaultOCQuestion), none, none, none⟩
        : OCEpisodeContent).connections_round
      = some (([] : List OCQuestion) ++ List.replicate
          (QUESTIONS_PER_ROUND - ([] : List QJson).length)
          defaultOCQuestion))
    ∧ ((⟨some [plainQ], none, none, none⟩
        : OCEpisodeContent).connections_round = some [plainQ]) :=
  ⟨load_data_absent_vs_present.2 emptyEpisode ⟨some [], none, none, none⟩
      [] [] _ rfl rfl rfl,
   load_data_absent_vs_present.1 ⟨some [plainQ], none, none, none⟩
      ⟨none, none, none, none⟩ _ rfl rfl⟩

/-- Counting helper: mapping `g` over a list bounds a count by a pointwise
implication. -/
theorem countP_map_le_of {α : Type} (l : List α) (g : α → α) (p q : α → Bool)
    (h : ∀ r ∈ l, p (g r) = true → q r = true) :
    (l.map g).countP p ≤ l.countP q := by
  rw [List.countP_map]
  exact List.countP_mono_left h

/-- Counting helper: with distinct versions, at most one row matches a given
version. -/
theorem version_count_le_one (db : List (Nat × EpisodeState)) (v : Nat)
    (hnd : (db.map Prod.fst).Nodup) :
    db.countP (fun r => r.1 == v) ≤ 1 := by
  have h1 : db.countP (fun r => r.1 == v) = (db.map Prod.fst).count v := by
    rw [List.count, List.countP_map]
    rfl
  rw [h1]
  exact List.nodup_iff_count_le_one.mp hnd v

/-- `save_state` never changes the version column. -/
theorem save_state_versions (db : List (Nat × EpisodeState)) (v : Nat)
    (ms ns : EpisodeState) :
    (save_state db v ms ns).map Prod.fst = db.map Prod.fst := by
  unfold save_state
  split
  · rw [List.map_map]
    apply List.map_congr_left
    intro r _
    simp only [Function.comp_apply]
    split <;> rfl
  · rw [List.map_map, List.map_map]
    apply List.map_congr_left
    intro r _
    simp only [Function.comp_apply]
    split <;> split <;> rfl

/-- Single-step preservation: one `save_state` call keeps at most one
PUBLISHED and at most one PENDING_REVIEW version. -/
theorem save_state_counts (db : List (Nat × EpisodeState)) (v : Nat)
    (ms ns : EpisodeState) (hnd : (db.map Prod.fst).Nodup)
    (hpub : countState db .PUBLISHED ≤ 1)
    (hrev : countState db .PENDING_REVIEW ≤ 1) :
    countState (save_state db v ms ns) .PUBLISHED ≤ 1
      ∧ countState (save_state db v ms ns) .PENDING_REVIEW ≤ 1 := by
  have h1 : ∀ st : EpisodeState, st ≠ ns →
      countState (db.map (fun row =>
        if row.1 = v ∧ row.2 = ms then (row.1, ns) else row)) st
        ≤ countState db st := by
    intro st hst
    apply countP_map_le_of
    intro r _ hr
    split at hr
    · exact absurd (eq_of_beq hr).symm hst
    · exact hr
  have hnd1 : ((db.map (fun row =>
      if row.1 = v ∧ row.2 = ms then (row.1, ns) else row)).map Prod.fst)
      = db.map Prod.fst := by
    rw [List.map_map]
    apply List.map_congr_left
    intro r _
    simp only [Function.comp_apply]
    split <;> rfl
  have hv1 : (db.map (fun row =>
      if row.1 = v ∧ row.2 = ms then (row.1, ns) else row)).countP
        (fun r => r.1 == v) ≤ 1 := by
    apply version_count_le_one
    rw [hnd1]
    exact hnd
  have hkey : ∀ (demoted : EpisodeState), demoted ≠ ns →
      ∀ (l : List (Nat × EpisodeState)), l.countP (fun r => r.1 == v) ≤ 1 →
      countState (l.map (fun row =>
        if row.2 = ns ∧ row.1 ≠ v then (row.1, demoted) else row)) ns ≤ 1 := by
    intro demoted hd l hl
    refine le_trans (countP_map_le_of l _ _ (fun r => r.1 == v) ?_) hl
    intro r _ hr
    split at hr
    · exact absurd (eq_of_beq hr) hd
    · rename_i hcond
      simp only [not_and, not_not] at hcond
      exact beq_iff_eq.mpr (hcond (eq_of_beq hr))
  have hkeep : ∀ (demoted : EpisodeState) (st : EpisodeState), st ≠ demoted →
      ∀ (l : List (Nat × EpisodeState)),
      countState (l.map (fun row =>
        if row.2 = ns ∧ row.1 ≠ v then (row.1, demoted) else row)) st
        ≤ countState l st := by
    intro demoted st hst l
    apply countP_map_le_of
    intro r _ hr
    split at hr
    · exact absurd (eq_of_beq hr).symm hst
    · exact hr
  unfold save_state
  cases ns with
  | PUBLISHED =>
      simp only [reduceCtorEq, or_self, if_false, reduceIte]
      constructor
      · exact hkey .SUPERSEDED (by decide) _ hv1
      · exact le_trans (hkeep .SUPERSEDED .PENDING_REVIEW (by decide) _)
          (le_trans (h1 .PENDING_REVIEW (by decide)) hrev)
  | PENDING_REVIEW =>
      simp only [reduceCtorEq, or_self, if_false, reduceIte]
      constructor
      · exact le_trans (hkeep .DISCARDED .PUBLISHED (by decide) _)
          (le_trans (h1 .PUBLISHED (by decide)) hpub)
      · exact hkey .DISCARDED (by decide) _ hv1
  | DRAFT =>
      simp only [reduceCtorEq, or_self, if_false, reduceIte]
      constructor
      · exact le_trans (hkeep .DISCARDED .PUBLISHED (by decide) _)
          (le_trans (h1 .PUBLISHED (by decide)) hpub)
      · exact le_trans (hkeep .DISCARDED .PENDING_REVIEW (by decide) _)
          (le_trans (h1 .PENDING_REVIEW (by decide)) hrev)
  | DISCARDED =>
      simp only [reduceCtorEq, or_true, true_or, if_true]
      exact ⟨le_trans (h1 .PUBLISHED (by decide)) hpub,
        le_trans (h1 .PENDING_REVIEW (by decide)) hrev⟩
  | SUPERSEDED =>
      simp only [reduceCtorEq, or_true, true_or, if_true]
      exact ⟨le_trans (h1 .PUBLISHED (by decide)) hpub,
        le_trans (h1 .PENDING_REVIEW (by decide)) hrev⟩

/-- C2: (a) after any sequence of `save_state` calls starting from a table
with distinct versions and at most one PUBLISHED / PENDING_REVIEW version
(so at every point along the sequence, since every prefix is such a
sequence), at most one version is PUBLISHED and at most one is
PENDING_REVIEW; (b) saving a version as PUBLISHED demotes every other
PUBLISHED version of the episode to SUPERSEDED; (c) transitions to the
terminal states DISCARDED and SUPERSEDED never change any other version's
row. -/
theorem save_state_lifecycle :
    (∀ (db : List (Nat × EpisodeState))
        (calls : List (Nat × EpisodeState × EpisodeState)),
        (db.map Prod.fst).Nodup →
        countState db .PUBLISHED ≤ 1 → countState db .PENDING_REVIEW ≤ 1 →
        countState (runCalls db calls) .PUBLISHED ≤ 1
          ∧ countState (runCalls db calls) .PENDING_REVIEW ≤ 1)
    ∧ (∀ (db : List (Nat × EpisodeState)) (v : Nat) (ms : EpisodeState)
        (i : Nat) (row : Nat × EpisodeState),
        db[i]? = some row → row.1 ≠ v → row.2 = .PUBLISHED →
        (save_state db v ms .PUBLISHED)[i]? = some (row.1, .SUPERSEDED))
    ∧ (∀ (db : List (Nat × EpisodeState)) (v : Nat) (ms ns : EpisodeState)
        (i : Nat) (row : Nat × EpisodeState),
        ns = .DISCARDED ∨ ns = .SUPERSEDED →
        db[i]? = some row → row.1 ≠ v →
        (save_state db v ms ns)[i]? = some row) := by
  refine ⟨?_, ?_, ?_⟩
  · intro db calls hnd hpub hrev
    induction calls generalizing db with
    | nil => exact ⟨hpub, hrev⟩
    | cons c rest ih =>
        have hnd2 : ((save_state db c.1 c.2.1 c.2.2).map Prod.fst).Nodup := by
          rw [save_state_versions]
          exact hnd
        have hc := save_state_counts db c.1 c.2.1 c.2.2 hnd hpub hrev
        exact ih _ hnd2 hc.1 hc.2
  · intro db v ms i row hi hv hpubrow
    simp [save_state, hi, hv, hpubrow]
  · intro db v ms ns i row hns hi hv
    rcases hns with hns | hns <;> subst hns <;> simp [save_state, hi, hv]

/-- Witness for `save_state_lifecycle` on a concrete table
`{1: PUBLISHED, 2: DRAFT}`: publishing version 2 demotes version 1 to
SUPERSEDED, and discarding a version changes nothing else. -/
theorem save_state_lifecycle_witness :
    (countState (runCalls [(1, .PUBLISHED), (2, .DRAFT)]
        [(2, .DRAFT, .PUBLISHED), (2, .PUBLISHED, .DISCARDED)])
        .PUBLISHED ≤ 1
      ∧ countState (runCalls [(1, .PUBLISHED), (2, .DRAFT)]
        [(2, .DRAFT, .PUBLISHED), (2, .PUBLISHED, .DISCARDED)])
        .PENDING_REVIEW ≤ 1)
    ∧ (save_state [(1, .PUBLISHED), (2, .DRAFT)] 2 .DRAFT .PUBLISHED)[0]?
        = some (1, .SUPERSEDED)
    ∧ (save_state [(1, .SUPERSEDED), (2, .PUBLISHED)] 2 .PUBLISHED
        .DISCARDED)[0]? = some (1, .SUPERSEDED) :=
  ⟨save_state_lifecycle.1 _ _ (by decide) (by decide) (by decide),
   save_state_lifecycle.2.1 _ 2 .DRAFT 0 (1, .PUBLISHED) (by decide)
     (by decide) (by decide),
   save_state_lifecycle.2.2 _ 2 .PUBLISHED .DISCARDED 0 (1, .SUPERSEDED)
     (by decide) (by decide) (by decide)⟩

/-- C8 counterexample: a room stopped before its deadline (e.g. via the
`close` command) makes `reap()` return true even though the idle deadline
has not passed, refuting the claimed "if and only if". -/
theorem room_reap_true_before_deadline :
    (((Room.init 0).stop).reap 10).1 = true
      ∧ ¬ (((Room.init 0).stop).ping_deadline < 10) := by
  decide

/-- C8 (amended): `reap(now)` returns true iff the idle deadline has passed
or the room was already stopped; whenever the deadline has passed it stops
the room.  (`ping()` sets the deadline to now + 15 minutes, as
`Room.ping`/`Room.init` show.) -/
theorem room_reap_iff_deadline_or_stopped (r : Room) (now : Int) :
    ((r.reap now).1 = true ↔ (r.ping_deadline < now ∨ r.stopped = true))
      ∧ (r.ping_deadline < now → (r.reap now).2.stopped = true) := by
  unfold Room.reap Room.stop
  by_cases h : r.ping_deadline < now <;> simp [h]

/-- Witness for `room_reap_iff_deadline_or_stopped`: a live room reaped
after its deadline is stopped. -/
theorem room_reap_iff_deadline_or_stopped_witness :
    ((Room.init 0).reap 1000).2.stopped = true :=
  (room_reap_iff_deadline_or_stopped (Room.init 0) 1000).2 (by decide)

/-- C10: once a room is stopped it stays stopped under every sequence of
`ping`/`reap`/`stop` operations; `ping` leaves it entirely unchanged (in
particular the idle deadline), and `reap` returns true. -/
theorem room_stopped_forever (r : Room) (h : r.stopped = true) :
    (∀ ops : List RoomOp, (ops.foldl Room.runOp r).stopped = true)
      ∧ (∀ now, r.ping now = r)
      ∧ (∀ now, (r.reap now).1 = true) := by
  have hstep : ∀ (r' : Room), r'.stopped = true →
      ∀ op, (Room.runOp r' op).stopped = true := by
    intro r' h' op
    cases op <;>
      simp [Room.runOp, Room.ping, Room.reap, Room.stop, h'] <;>
      split <;> simp [Room.stop, h']
  refine ⟨?_, ?_, ?_⟩
  · intro ops
    induction ops generalizing r with
    | nil => exact h
    | cons op rest ih => exact ih _ (hstep r h op)
  · intro now
    simp [Room.ping, h]
  · intro now
    unfold Room.reap
    split <;> simp [Room.stop, h]

/-- Witness for `room_stopped_forever` at a stopped room. -/
theorem room_stopped_forever_witness :
    (([RoomOp.ping 5, RoomOp.reap 6, RoomOp.ping 2000].foldl Room.runOp
        ((Room.init 0).stop)).stopped = true)
      ∧ ((Room.init 0).stop.ping 5 = (Room.init 0).stop)
      ∧ (((Room.init 0).stop.reap 6).1 = true) :=
  ⟨(room_stopped_forever _ (by decide)).1 _,
   (room_stopped_forever _ (by decide)).2.1 5,
   (room_stopped_forever _ (by decide)).2.2 6⟩

/-!
## C6: connecting-wall invariants

List-level groundwork for the analysis of `ActiveWall.toggle`,
`ActiveWall.check_match_group` and `ActiveWall.reveal_wall`.
-/

/-- `list.index` returns an in-range index. -/
theorem indexOf?_lt {x : String} : ∀ (l : List String) (i : Nat),
    l.indexOf? x = some i → i < l.length := by
  intro l
  induction l with
  | nil => intro i h; simp [List.indexOf?_nil] at h
  | cons a as ih =>
      intro i h
      rw [List.indexOf?_cons] at h
      split at h
      · cases h; simp
      · rcases Option.map_eq_some'.mp h with ⟨j, hj, rfl⟩
        have := ih j hj
        simp only [List.length_cons]
        omega

/-- Erasing at a later position leaves earlier positions unchanged. -/
theorem getD_eraseIdx_of_lt (l : List String) (i j : Nat) (hj : j < i) :
    (l.eraseIdx i).getD j "" = l.getD j "" := by
  have h1 : (l.eraseIdx i)[j]? = l[j]? := by
    rw [List.getElem?_eraseIdx]
    simp [hj, Nat.not_le.mpr hj]
  simp [List.getD_eq_getElem?_getD, h1]

/-- Popping a strictly descending list of in-range indices removes exactly
the entries at those indices (as a multiset). -/
theorem foldl_eraseIdx_perm : ∀ (idxs : List Nat) (l : List String),
    idxs.Pairwise (fun a b => b < a) → (∀ i ∈ idxs, i < l.length) →
    ((idxs.foldl (fun acc i => acc.eraseIdx i) l) ++
      idxs.map (fun i => l.getD i "")).Perm l := by
  intro idxs
  induction idxs with
  | nil => intro l _ _; simp
  | cons i0 rest ih =>
      intro l hp hb
      have hi0 : i0 < l.length := hb i0 (by simp)
      have hrest_lt : ∀ j ∈ rest, j < i0 :=
        fun j hj => (List.pairwise_cons.mp hp).1 j hj
      have hb2 : ∀ j ∈ rest, j < (l.eraseIdx i0).length := by
        intro j hj
        rw [List.length_eraseIdx]
        have := hrest_lt j hj
        simp [hi0]
        omega
      have ih2 := ih (l.eraseIdx i0) (List.pairwise_cons.mp hp).2 hb2
      have hmap : rest.map (fun i => (l.eraseIdx i0).getD i "") =
          rest.map (fun i => l.getD i "") :=
        List.map_congr_left (fun j hj => getD_eraseIdx_of_lt l i0 j (hrest_lt j hj))
      rw [hmap] at ih2
      have hsplit : l.Perm (l.getD i0 "" :: l.eraseIdx i0) := by
        rw [List.getD_eq_getElem l "" hi0]
        conv_lhs => rw [← List.take_append_drop i0 l]
        rw [List.eraseIdx_eq_take_drop_succ]
        have hd : l.drop i0 = l[i0] :: l.drop (i0 + 1) :=
          (List.getElem_cons_drop l i0 hi0).symm
        rw [hd]
        exact List.perm_middle
      show ((i0 :: rest).foldl (fun acc i => acc.eraseIdx i) l ++
          (i0 :: rest).map fun i => l.getD i "").Perm l
      simp only [List.foldl_cons, List.map_cons]
      have h1 : ((rest.foldl (fun acc i => acc.eraseIdx i) (l.eraseIdx i0)) ++
          (l.getD i0 "" :: rest.map fun i => l.getD i "")).Perm
          (l.getD i0 "" :: ((rest.foldl (fun acc i => acc.eraseIdx i)
            (l.eraseIdx i0)) ++ rest.map fun i => l.getD i "")) :=
        List.perm_middle
      exact (h1.trans (ih2.cons (l.getD i0 ""))).trans hsplit.symm

/-- `removeIndices` with distinct in-range indices removes exactly the
entries at those indices. -/
theorem removeIndices_perm (l : List String) (idxs : List Nat)
    (hnd : idxs.Nodup) (hb : ∀ i ∈ idxs, i < l.length) :
    (removeIndices l idxs ++ idxs.map (fun i => l.getD i "")).Perm l := by
  unfold removeIndices
  have hperm : (idxs.insertionSort (· ≥ ·)).Perm idxs :=
    List.perm_insertionSort _ idxs
  have hsorted : (idxs.insertionSort (· ≥ ·)).Pairwise
      (fun a b => b ≤ a) := by
    have h := List.sorted_insertionSort (· ≥ ·) idxs
    exact h.imp (fun hx => hx)
  have hnd2 : (idxs.insertionSort (· ≥ ·)).Nodup :=
    (hperm.nodup_iff).mpr hnd
  have hpw : (idxs.insertionSort (· ≥ ·)).Pairwise
      (fun a b => b < a) :=
    (hsorted.and hnd2).imp (fun hx => lt_of_le_of_ne hx.1 (Ne.symm hx.2))
  have hbs : ∀ i ∈ idxs.insertionSort (· ≥ ·), i < l.length :=
    fun i hi => hb i (hperm.subset hi)
  have hfold := foldl_eraseIdx_perm (idxs.insertionSort (· ≥ ·))
    l hpw hbs
  exact (List.Perm.append_left _ ((hperm.map _).symm)).trans hfold

/-- Length bookkeeping for `removeIndices`. -/
theorem removeIndices_length (l : List String) (idxs : List Nat)
    (hnd : idxs.Nodup) (hb : ∀ i ∈ idxs, i < l.length) :
    (removeIndices l idxs).length + idxs.length = l.length := by
  have h := (removeIndices_perm l idxs hnd hb).length_eq
  simpa using h

/-- Flattening preserves sublists. -/
theorem flatten_sublist {α : Type} {l1 l2 : List (List α)} (h : l1.Sublist l2) :
    l1.flatten.Sublist l2.flatten := by
  induction h with
  | slnil => simp
  | cons a _ ih =>
      rw [List.flatten_cons]
      exact ih.trans (List.sublist_append_right a _)
  | cons₂ a _ ih =>
      rw [List.flatten_cons, List.flatten_cons]
      exact (List.Sublist.refl a).append ih

/-- `ConnectingWall.clues` of a sub-wall is a sublist of the full clues. -/
theorem wallClues_sublist {rem wall : List TextQ} (h : rem.Sublist wall) :
    (wallClues rem).Sublist (wallClues wall) :=
  flatten_sublist (h.map TextQ.elements)

theorem wallClues_cons (g : TextQ) (l : List TextQ) :
    wallClues (g :: l) = g.elements ++ wallClues l := by
  simp [wallClues]

theorem wallClues_perm {l1 l2 : List TextQ} (h : l1.Perm l2) :
    (wallClues l1).Perm (wallClues l2) :=
  (h.map TextQ.elements).flatten

/-- A valid wall's groups each hold four clues. -/
theorem valid_elements_len {wall : List TextQ}
    (hv : connectingWallValid wall = true) :
    ∀ g ∈ wall, g.elements.length = 4 := by
  intro g hg
  have h := (List.all_eq_true.mp hv) g hg
  simp only [TextQ.valid, Bool.and_eq_true, beq_iff_eq, SLOTS_PER_CONNECTION,
    decide_eq_true_eq] at h
  exact h.1.2

theorem clues_length {wall : List TextQ}
    (h : ∀ g ∈ wall, g.elements.length = 4) :
    (wallClues wall).length = 4 * wall.length := by
  induction wall with
  | nil => simp [wallClues]
  | cons g l ih =>
      rw [wallClues_cons]
      simp only [List.length_append, List.length_cons]
      rw [h g (by simp), ih (fun g2 hg2 => h g2 (by simp [hg2]))]
      ring

/-- In a duplicate-free flattening, two parts sharing an element are equal. -/
theorem flatten_parts_eq {α : Type} : ∀ (L : List (List α)), L.flatten.Nodup →
    ∀ l1 ∈ L, ∀ l2 ∈ L, ∀ x ∈ l1, x ∈ l2 → l1 = l2 := by
  intro L
  induction L with
  | nil => simp
  | cons a L ih =>
      intro hnd l1 h1 l2 h2 x hx1 hx2
      rw [List.flatten_cons, List.nodup_append] at hnd
      cases List.mem_cons.mp h1 with
      | inl h1e =>
          cases List.mem_cons.mp h2 with
          | inl h2e => rw [h1e, h2e]
          | inr h2m =>
              exact absurd (List.mem_flatten.mpr ⟨l2, h2m, hx2⟩)
                (hnd.2.2 (h1e ▸ hx1))
      | inr h1m =>
          cases List.mem_cons.mp h2 with
          | inl h2e =>
              exact absurd (List.mem_flatten.mpr ⟨l1, h1m, hx1⟩)
                (hnd.2.2 (h2e ▸ hx2))
          | inr h2m => exact ih hnd.2.1 l1 h1m l2 h2m x hx1 hx2

/-- With pairwise-distinct clues, two wall groups sharing a clue have the
same clue list. -/
theorem wall_elements_unique {wall : List TextQ}
    (hnd : (wallClues wall).Nodup) {g1 g2 : TextQ}
    (h1 : g1 ∈ wall) (h2 : g2 ∈ wall) {x : String}
    (hx1 : x ∈ g1.elements) (hx2 : x ∈ g2.elements) :
    g1.elements = g2.elements := by
  unfold wallClues at hnd
  exact flatten_parts_eq _ hnd g1.elements (List.mem_map_of_mem _ h1)
    g2.elements (List.mem_map_of_mem _ h2) x hx1 hx2

/-- With pairwise-distinct clues, each group's clue list is duplicate-free. -/
theorem wall_part_nodup {wall : List TextQ} (hnd : (wallClues wall).Nodup)
    {g : TextQ} (hg : g ∈ wall) : g.elements.Nodup := by
  unfold wallClues at hnd
  rw [List.nodup_flatten] at hnd
  exact hnd.1 g.elements (List.mem_map_of_mem _ hg)

theorem mem_wallClues {rem : List TextQ} {x : String} (h : x ∈ wallClues rem) :
    ∃ g ∈ rem, x ∈ g.elements := by
  unfold wallClues at h
  rcases List.mem_flatten.mp h with ⟨l, hl, hx⟩
  rcases List.mem_map.mp hl with ⟨g, hg, rfl⟩
  exact ⟨g, hg, hx⟩

theorem perm_append_cancel {l1 l2 t1 t2 : List String}
    (h : (l1 ++ t1).Perm (l2 ++ t2)) (ht : t1.Perm t2) : l1.Perm l2 :=
  (List.perm_append_right_iff t1).mp (h.trans (List.Perm.append_left l2 ht.symm))

/-- The element-removal loop of `reveal_wall` succeeds and removes exactly
the group's clues when they are all present. -/
theorem removeEach_of_perm : ∀ (es ung t : List String), ung.Perm (es ++ t) →
    (removeEach ung es).2 = false ∧ (removeEach ung es).1.Perm t := by
  intro es
  induction es with
  | nil =>
      intro ung t h
      simpa [removeEach] using h
  | cons e rest ih =>
      intro ung t h
      have he : e ∈ ung := h.mem_iff.mpr (by simp)
      have hrem : pyRemove ung e = some (ung.erase e) := by
        simp [pyRemove, he]
      have h2 : (ung.erase e).Perm (rest ++ t) := by
        have h3 := h.erase e
        simpa using h3
      simp only [removeEach, hrem]
      exact ih (ung.erase e) t h2

/-- Scanning groups none of which contain the sought clue changes nothing. -/
theorem revealInner_none (head : String) : ∀ (W : List TextQ)
    (ung nf : List String) (gs : List TextQ),
    (∀ g ∈ W, head ∉ g.elements) →
    revealInner head W ung nf gs = (ung, nf, gs, false) := by
  intro W
  induction W with
  | nil => intro ung nf gs _; rfl
  | cons g rest ih =>
      intro ung nf gs h
      have hg : ¬ (g.elements.contains head = true) := by
        simpa using h g (by simp)
      simp only [revealInner]
      rw [if_neg hg]
      exact ih ung nf gs (fun g2 hg2 => h g2 (by simp [hg2]))

/-- With duplicate-free clues, once a group holding `head` has been scanned,
no later group in the scan holds `head`. -/
theorem no_second_group {W0 : List TextQ} (hnd : (wallClues W0).Nodup)
    {g : TextQ} {rest : List TextQ} (hsub : (g :: rest).Sublist W0)
    {head : String} (hgh : head ∈ g.elements) :
    ∀ g2 ∈ rest, head ∉ g2.elements := by
  intro g2 hg2 hh2
  have h1 : 0 < g.elements.count head := List.count_pos_iff.mpr hgh
  have h2 : 0 < (wallClues rest).count head :=
    List.count_pos_iff.mpr (by
      unfold wallClues
      exact List.mem_flatten.mpr ⟨g2.elements, List.mem_map_of_mem _ hg2, hh2⟩)
  have h3 : (wallClues (g :: rest)).count head =
      g.elements.count head + (wallClues rest).count head := by
    rw [wallClues_cons, List.count_append]
  have h4 := (wallClues_sublist hsub).count_le head
  have h5 := List.nodup_iff_count_le_one.mp hnd head
  omega

/-- The inner scan of `reveal_wall` under pairwise-distinct clues, when the
group holding `head` is among the unfound groups: it removes exactly that
group's clues, appends them to `not_found`, and raises nothing. -/
theorem revealInner_found {W0 : List TextQ} (hnd : (wallClues W0).Nodup)
    (head : String) :
    ∀ (W : List TextQ), W.Sublist W0 →
    ∀ (rem : List TextQ) (ung nf : List String) (gs : List TextQ) (p : TextQ),
    (∀ q ∈ rem, q ∈ W0) → (wallClues rem).Nodup →
    ung.Perm (wallClues rem) →
    p ∈ rem → head ∈ p.elements → p ∈ W →
    (revealInner head W ung nf gs).2.2.2 = false ∧
    (revealInner head W ung nf gs).1.Perm (wallClues (rem.erase p)) ∧
    (∀ q ∈ rem.erase p, q ∈ W0) ∧ (wallClues (rem.erase p)).Nodup ∧
    (revealInner head W ung nf gs).1.length + p.elements.length = ung.length ∧
    (revealInner head W ung nf gs).2.1.length =
      nf.length + p.elements.length := by
  intro W
  induction W with
  | nil =>
      intro _ rem ung nf gs p _ _ _ _ _ hpW
      exact absurd hpW (by simp)
  | cons g rest ih =>
      intro hsub rem ung nf gs p hmem hndrem hperm hprem hph hpW
      by_cases hgh : head ∈ g.elements
      · have hgW0 : g ∈ W0 := hsub.subset (by simp)
        have heq : g.elements = p.elements :=
          wall_elements_unique hnd hgW0 (hmem p hprem) hgh hph
        have hremsplit : rem.Perm (p :: rem.erase p) := List.perm_cons_erase hprem
        have hung2 : ung.Perm (p.elements ++ wallClues (rem.erase p)) := by
          have h5 := wallClues_perm hremsplit
          rw [wallClues_cons] at h5
          exact hperm.trans h5
        have hre := removeEach_of_perm g.elements ung (wallClues (rem.erase p))
          (by rw [heq]; exact hung2)
        have hcond : g.elements.contains head = true := by simpa using hgh
        have hnone : ∀ g2 ∈ rest, head ∉ g2.elements :=
          no_second_group hnd hsub hgh
        have hni := revealInner_none head rest (removeEach ung g.elements).1
          (nf ++ g.elements) (gs ++ [g]) hnone
        have hstep : revealInner head (g :: rest) ung nf gs =
            ((removeEach ung g.elements).1, nf ++ g.elements, gs ++ [g],
              false) := by
          simp only [revealInner]
          rw [if_pos hcond, if_neg (by simp [hre.1]), hni]
        have hlen1 := hre.2.length_eq
        have hlen2 := hung2.length_eq
        rw [List.length_append] at hlen2
        refine ⟨by rw [hstep], by rw [hstep]; exact hre.2,
          fun q hq => hmem q (List.mem_of_mem_erase hq),
          hndrem.sublist (wallClues_sublist (List.erase_sublist p rem)),
          by rw [hstep]
             show (removeEach ung g.elements).1.length + p.elements.length
               = ung.length
             omega,
          by rw [hstep]
             show (nf ++ g.elements).length = nf.length + p.elements.length
             simp [heq]⟩
      · have hne : p ≠ g := fun hpg => hgh (hpg ▸ hph)
        have hprest : p ∈ rest := by
          cases List.mem_cons.mp hpW with
          | inl h6 => exact absurd h6 hne
          | inr h6 => exact h6
        have hcond : ¬ (g.elements.contains head = true) := by simpa using hgh
        have hstep : revealInner head (g :: rest) ung nf gs =
            revealInner head rest ung nf gs := by
          simp only [revealInner]
          rw [if_neg hcond]
        rw [hstep]
        exact ih ((List.sublist_cons_self g rest).trans hsub) rem ung nf gs p
          hmem hndrem hperm hprem hph hprest

/-- The `while self.ungrouped` loop of `reveal_wall`: under pairwise-distinct
clues, with the unfound groups intact, it drains `ungrouped` into `not_found`
without error and leaves every other field alone. -/
theorem revealLoop_spec {W0 : List TextQ} (hnd : (wallClues W0).Nodup) :
    ∀ (fuel : Nat) (w : ActiveWall), w.wall = W0 →
    ∀ (rem : List TextQ), (∀ q ∈ rem, q ∈ W0) → (wallClues rem).Nodup →
    w.ungrouped.Perm (wallClues rem) →
    w.ungrouped.length < fuel →
    (revealLoop fuel w).2 = false ∧
    (revealLoop fuel w).1.ungrouped = [] ∧
    (revealLoop fuel w).1.not_found.length =
      w.not_found.length + w.ungrouped.length ∧
    (revealLoop fuel w).1.grouped = w.grouped ∧
    (revealLoop fuel w).1.strikes = w.strikes ∧
    (revealLoop fuel w).1.wall = w.wall ∧
    (revealLoop fuel w).1.selected = w.selected ∧
    (revealLoop fuel w).1.confirming_group = w.confirming_group ∧
    (revealLoop fuel w).1.is_group_revealed = w.is_group_revealed := by
  intro fuel
  induction fuel with
  | zero =>
      intro w _ rem _ _ _ hlt
      omega
  | succ fuel ih =>
      intro w hwall rem hmem hndrem hperm hlt
      cases hu : w.ungrouped with
      | nil =>
          have hz : revealLoop (fuel + 1) w = (w, false) := by
            simp only [revealLoop, hu]
          rw [hz, hu]
          simp
      | cons head tail =>
          rw [hu] at hperm hlt
          have hhc : head ∈ wallClues rem := hperm.mem_iff.mp (by simp)
          rcases mem_wallClues hhc with ⟨p, hprem, hph⟩
          have hfound := revealInner_found hnd head W0 (List.Sublist.refl W0)
            rem (head :: tail) w.not_found w.groups p hmem hndrem hperm hprem
            hph (hmem p hprem)
          obtain ⟨herr, hperm2, hmem2, hnd2, hlen2, hnf2⟩ := hfound
          have hplen : 0 < p.elements.length := List.length_pos_of_mem hph
          rw [List.length_cons] at hlen2 hlt
          have hih := ih { w with
              ungrouped := (revealInner head W0 (head :: tail) w.not_found
                w.groups).1
              not_found := (revealInner head W0 (head :: tail) w.not_found
                w.groups).2.1
              groups := (revealInner head W0 (head :: tail) w.not_found
                w.groups).2.2.1 } (by simpa using hwall) (rem.erase p) hmem2
            hnd2 (by simpa using hperm2) (by simp only []; omega)
          have hstep : revealLoop (fuel + 1) w = revealLoop fuel { w with
              ungrouped := (revealInner head W0 (head :: tail) w.not_found
                w.groups).1
              not_found := (revealInner head W0 (head :: tail) w.not_found
                w.groups).2.1
              groups := (revealInner head W0 (head :: tail) w.not_found
                w.groups).2.2.1 } := by
            simp only [revealLoop, hu, hwall]
            rw [if_neg (by simp [herr])]
          obtain ⟨k1, k2, k3, k4, k5, k6, k7, k8, k9⟩ := hih
          rw [hstep]
          simp only [] at k1 k2 k3 k4 k5 k6 k7 k8 k9
          refine ⟨k1, k2, ?_, k4, k5, k6, k7, k8, k9⟩
          rw [k3]
          simp only [List.length_cons]
          omega

/-- `ActiveWall.reveal_wall` under pairwise-distinct clues: no exception, the
board is fully drained into `not_found`, strikes are cleared, and every
other field is preserved. -/
theorem reveal_wall_spec {W0 : List TextQ} (hnd : (wallClues W0).Nodup)
    (w : ActiveWall) (hwall : w.wall = W0) (rem : List TextQ)
    (hmem : ∀ q ∈ rem, q ∈ W0) (hndrem : (wallClues rem).Nodup)
    (hperm : w.ungrouped.Perm (wallClues rem)) :
    (w.reveal_wall).2 = false ∧
    (w.reveal_wall).1.ungrouped = [] ∧
    (w.reveal_wall).1.strikes = none ∧
    (w.reveal_wall).1.not_found.length =
      w.not_found.length + w.ungrouped.length ∧
    (w.reveal_wall).1.grouped = w.grouped ∧
    (w.reveal_wall).1.wall = w.wall ∧
    (w.reveal_wall).1.selected = w.selected ∧
    (w.reveal_wall).1.confirming_group = w.confirming_group ∧
    (w.reveal_wall).1.is_group_revealed = w.is_group_revealed := by
  have h := revealLoop_spec hnd (w.ungrouped.length + 1)
    { w with strikes := none } hwall rem hmem hndrem hperm (by simp)
  obtain ⟨h1, h2, h3, h4, h5, h6, h7, h8, h9⟩ := h
  unfold ActiveWall.reveal_wall
  exact ⟨h1, h2, h5, h3, h4, h6, h7, h8, h9⟩

/-- `ConnectingWallState.lock_in` from QUESTION_ACTIVE under pairwise-distinct
clues: it returns true, credits the active team, reveals the wall without an
exception, and moves to LOCKED_IN. -/
theorem lock_in_spec (s : WallRound) (w : ActiveWall)
    (hst : s.state = .QUESTION_ACTIVE) (hw : s.active_wall = some w)
    (hat : s.active_team < s.teams.length)
    (hnd : (wallClues w.wall).Nodup) (rem : List TextQ)
    (hmem : ∀ q ∈ rem, q ∈ w.wall) (hndrem : (wallClues rem).Nodup)
    (hperm : w.ungrouped.Perm (wallClues rem)) :
    (s.lock_in).1 = some true ∧
    (s.lock_in).2.state = .LOCKED_IN ∧
    (s.lock_in).2.teams.length = s.teams.length ∧
    (s.lock_in).2.active_team = s.active_team ∧
    ∃ w2, (s.lock_in).2.active_wall = some w2 ∧
      w2.ungrouped = [] ∧ w2.strikes = none ∧
      w2.grouped.length + w2.not_found.length =
        w.grouped.length + w.not_found.length + w.ungrouped.length := by
  obtain ⟨old, hold⟩ : ∃ a, s.teams.get? s.active_team = some a := by
    cases hg : s.teams.get? s.active_team with
    | none => exact absurd (List.get?_eq_none.mp hg) (Nat.not_le.mpr hat)
    | some a => exact ⟨a, rfl⟩
  have hrev := reveal_wall_spec hnd w rfl rem hmem hndrem hperm
  obtain ⟨h1, h2, h3, h4, h5, h6, h7, h8, h9⟩ := hrev
  have hstep : s.lock_in = (some true,
      { s with
        teams := s.teams.set s.active_team
          (old + ((w.grouped.length / 4 : Nat) : Int))
        active_wall := some (w.reveal_wall).1
        state := .LOCKED_IN }) := by
    simp only [WallRound.lock_in, hst, hw, hold]
    rw [if_neg (by simp)]
    rw [if_neg (by simp [h1])]
  rw [hstep]
  refine ⟨rfl, rfl, by simp, rfl, (w.reveal_wall).1, rfl, h2, h3, ?_⟩
  have h10 : (w.reveal_wall).1.grouped.length = w.grouped.length := by rw [h5]
  omega

/-- Invariant of a wall being solved (sub-state QUESTION_ACTIVE): `rem` is
the sub-wall of groups not yet found. -/
def WallAuxQA (wall0 : List TextQ) (w : ActiveWall) : Prop :=
  w.wall = wall0 ∧ w.not_found = [] ∧
  w.selected.Nodup ∧ (∀ i ∈ w.selected, i < w.ungrouped.length) ∧
  ∃ rem, rem.Sublist wall0 ∧ w.ungrouped.Perm (wallClues rem) ∧
    w.grouped.length + w.ungrouped.length = 16 ∧
    ((w.strikes = none ∧ 2 < rem.length) ∨
     (∃ k, w.strikes = some k ∧ 1 ≤ k ∧ k ≤ 3 ∧ rem.length ≤ 2))

/-- Invariant after the wall has been locked in and revealed. -/
def WallAuxLocked (w : ActiveWall) : Prop :=
  w.ungrouped = [] ∧ w.strikes = none ∧
  w.grouped.length + w.not_found.length = 16

/-- Reachability invariant of the wall round under toggle/lock-in ops. -/
def WallAux (wall0 : List TextQ) (s : WallRound) : Prop :=
  s.active_team < s.teams.length ∧
  ((s.state = .QUESTION_ACTIVE ∧ ∃ w, s.active_wall = some w ∧
      WallAuxQA wall0 w) ∨
   (s.state = .LOCKED_IN ∧ ∃ w, s.active_wall = some w ∧ WallAuxLocked w))

/-- On a valid wall the unfound clues number four per unfound group. -/
theorem aux_ung_len {wall0 rem : List TextQ} {ung : List String}
    (hv : connectingWallValid wall0 = true) (hsub : rem.Sublist wall0)
    (hperm : ung.Perm (wallClues rem)) : ung.length = 4 * rem.length := by
  rw [hperm.length_eq,
    clues_length (fun g hg => valid_elements_len hv g (hsub.subset hg))]

/-- `ActiveWall.toggle` when a fourth distinct clue is picked: the guess is
checked. -/
theorem toggle_checked (w : ActiveWall) (word : String) (index : Nat)
    (hidx : pyIndexOf w.ungrouped word = some index)
    (hmem : index ∉ w.selected)
    (hlen : ¬ (({ w with selected := w.selected ++ [index] } : ActiveWall).selected.length ≠ SLOTS_PER_CONNECTION)) :
    w.toggle word = (if (({ w with selected := w.selected ++ [index] } : ActiveWall).check_match_group ((w.selected ++ [index]).map (fun i => w.ungrouped.getD i ""))).2 = true then ((({ w with selected := w.selected ++ [index] } : ActiveWall).check_match_group ((w.selected ++ [index]).map (fun i => w.ungrouped.getD i ""))).1, true) else ({ (({ w with selected := w.selected ++ [index] } : ActiveWall).check_match_group ((w.selected ++ [index]).map (fun i => w.ungrouped.getD i ""))).1 with selected := [] }, false)) := by
  simp only [ActiveWall.toggle, hidx]
  rw [if_neg hmem, if_neg hlen]

/-- `_check_match_group`, no group matches, no strikes counter yet. -/
theorem check_none_none (w1 : ActiveWall) (words : List String)
    (hfind : w1.wall.find? (fun g =>
      words.all (fun wd => g.elements.contains wd)) = none)
    (hs : w1.strikes = none) :
    w1.check_match_group words = (w1, false) := by
  simp only [ActiveWall.check_match_group, hfind, hs]

/-- `_check_match_group`, no group matches, live strikes counter. -/
theorem check_none_some (w1 : ActiveWall) (words : List String) (st : Int)
    (hfind : w1.wall.find? (fun g =>
      words.all (fun wd => g.elements.contains wd)) = none)
    (hs : w1.strikes = some st) :
    w1.check_match_group words =
      ({ w1 with strikes := some (st - 1) }, decide (st - 1 ≤ 0)) := by
  simp only [ActiveWall.check_match_group, hfind, hs]

/-- `_check_match_group`, a group matches and eight clues remain: the
strikes counter is initialised to 3. -/
theorem check_some_hit (w1 : ActiveWall) (words : List String) (g : TextQ)
    (hfind : w1.wall.find? (fun g =>
      words.all (fun wd => g.elements.contains wd)) = some g)
    (h8 : (removeIndices w1.ungrouped w1.selected).length =
      2 * SLOTS_PER_CONNECTION) :
    w1.check_match_group words =
      ({ w1 with ungrouped := removeIndices w1.ungrouped w1.selected, grouped := w1.grouped ++ g.elements, groups := w1.groups ++ [g], strikes := some 3 },
        decide ((removeIndices w1.ungrouped w1.selected).length = 0)) := by
  simp only [ActiveWall.check_match_group, hfind]
  rw [if_pos h8]

/-- `_check_match_group`, a group matches away from the eight-clue mark. -/
theorem check_some_miss (w1 : ActiveWall) (words : List String) (g : TextQ)
    (hfind : w1.wall.find? (fun g =>
      words.all (fun wd => g.elements.contains wd)) = some g)
    (h8 : ¬ ((removeIndices w1.ungrouped w1.selected).length =
      2 * SLOTS_PER_CONNECTION)) :
    w1.check_match_group words =
      ({ w1 with ungrouped := removeIndices w1.ungrouped w1.selected, grouped := w1.grouped ++ g.elements, groups := w1.groups ++ [g] },
        decide ((removeIndices w1.ungrouped w1.selected).length = 0)) := by
  simp only [ActiveWall.check_match_group, hfind]
  rw [if_neg h8]

/-- One toggle or lock-in op preserves the wall invariant; moreover an op
that keeps the round in QUESTION_ACTIVE while dropping `ungrouped` to at
most 8 clues leaves exactly 3 strikes. -/
theorem wallAux_step {wall0 : List TextQ}
    (hv : connectingWallValid wall0 = true)
    (hnd : (wallClues wall0).Nodup)
    {s : WallRound} (h : WallAux wall0 s) (op : WallOp) :
    WallAux wall0 (s.runOp op) ∧
    (∀ w1 w2, s.active_wall = some w1 →
      (s.runOp op).active_wall = some w2 →
      (s.runOp op).state = .QUESTION_ACTIVE →
      8 < w1.ungrouped.length → w2.ungrouped.length ≤ 8 →
      w2.strikes = some 3) := by
  obtain ⟨hat, hcase⟩ := h
  cases hcase with
  | inr hlock =>
      obtain ⟨hst, w, hw, hU, hS, hC⟩ := hlock
      cases op with
      | lockIn =>
          have hstep : s.runOp .lockIn = s := by
            simp only [WallRound.runOp, WallRound.lock_in]
            rw [if_pos (by rw [hst]; simp)]
          rw [hstep]
          refine ⟨⟨hat, Or.inr ⟨hst, w, hw, hU, hS, hC⟩⟩, ?_⟩
          intro w1 w2 hw1 hw2 hqa2 _ _
          rw [hst] at hqa2
          exact absurd hqa2 (by simp)
      | toggle word =>
          have hidx : pyIndexOf w.ungrouped word = none := by
            rw [hU]; rfl
          have htog : w.toggle word = (w, false) := by
            simp only [ActiveWall.toggle, hidx]
          have hstep : s.runOp (.toggle word) = s := by
            simp only [WallRound.runOp, WallRound.toggle, hw, htog]
            rw [← hw]
            rfl
          rw [hstep]
          refine ⟨⟨hat, Or.inr ⟨hst, w, hw, hU, hS, hC⟩⟩, ?_⟩
          intro w1 w2 hw1 hw2 hqa2 _ _
          rw [hst] at hqa2
          exact absurd hqa2 (by simp)
  | inl hqa =>
      obtain ⟨hst, w, hw, hwq⟩ := hqa
      obtain ⟨hwall, hnf, hselnd, hselb, rem, hsub, hperm, hcount, hstr⟩ := hwq
      have hndw : (wallClues w.wall).Nodup := by rw [hwall]; exact hnd
      have hndrem : (wallClues rem).Nodup :=
        hnd.sublist (wallClues_sublist hsub)
      have hungnd : w.ungrouped.Nodup := hperm.nodup_iff.mpr hndrem
      have hulen : w.ungrouped.length = 4 * rem.length :=
        aux_ung_len hv hsub hperm
      have hmemrem : ∀ q ∈ rem, q ∈ w.wall := by
        rw [hwall]; exact fun q hq => hsub.subset hq
      have hnf0 : w.not_found.length = 0 := by rw [hnf]; rfl
      cases op with
      | lockIn =>
          obtain ⟨hl1, hl2, hl3, hl4, w3, hl5, hl6, hl7, hl8⟩ :=
            lock_in_spec s w hst hw hat hndw rem hmemrem hndrem hperm
          have hrun : s.runOp .lockIn = (s.lock_in).2 := rfl
          rw [hrun]
          refine ⟨⟨by rw [hl4, hl3]; exact hat,
            Or.inr ⟨hl2, w3, hl5, hl6, hl7, by omega⟩⟩, ?_⟩
          intro w1 w2 hw1 hw2 hqa2 _ _
          rw [hl2] at hqa2
          exact absurd hqa2 (by simp)
      | toggle word =>
          cases hidx : pyIndexOf w.ungrouped word with
          | none =>
              have htog : w.toggle word = (w, false) := by
                simp only [ActiveWall.toggle, hidx]
              have hstep : s.runOp (.toggle word) = s := by
                simp only [WallRound.runOp, WallRound.toggle, hw, htog]
                rw [← hw]
                rfl
              rw [hstep]
              refine ⟨⟨hat, Or.inl ⟨hst, w, hw, hwall, hnf, hselnd, hselb,
                rem, hsub, hperm, hcount, hstr⟩⟩, ?_⟩
              intro w1 w2 hw1 hw2 _ h8 h8'
              rw [hw] at hw1 hw2
              have e1 := Option.some.inj hw1
              have e2 := Option.some.inj hw2
              subst e1
              subst e2
              omega
          | some index =>
              have hib : index < w.ungrouped.length := indexOf?_lt _ _ hidx
              by_cases hmemsel : index ∈ w.selected
              · -- toggling an already-selected word deselects it
                have htog : w.toggle word =
                    ({ w with selected := w.selected.erase index }, false) := by
                  simp only [ActiveWall.toggle, hidx]
                  rw [if_pos hmemsel]
                have hstep : s.runOp (.toggle word) = { s with active_wall := some ({ w with selected := w.selected.erase index }) } := by
                  simp [WallRound.runOp, WallRound.toggle, hw, htog]
                rw [hstep]
                refine ⟨⟨hat, Or.inl ⟨hst, _, rfl, hwall, hnf,
                  hselnd.erase index,
                  fun i hi => hselb i (List.mem_of_mem_erase hi),
                  rem, hsub, hperm, hcount, hstr⟩⟩, ?_⟩
                intro w1 w2 hw1 hw2 _ h8 h8'
                rw [hw] at hw1
                have e1 := Option.some.inj hw1
                have e2 := Option.some.inj hw2
                subst e1
                rw [← e2] at h8'
                have h9 : w.ungrouped.length ≤ 8 := h8'
                omega
              · by_cases hlen4 : (w.selected ++ [index]).length = 4
                case neg =>
                    -- fewer than four selections: just record the new pick
                    have hcond : ({ w with selected := w.selected ++ [index] } :
                        ActiveWall).selected.length ≠ SLOTS_PER_CONNECTION := by
                      simpa [SLOTS_PER_CONNECTION] using hlen4
                    have htog : w.toggle word =
                        ({ w with selected := w.selected ++ [index] },
                          false) := by
                      simp only [ActiveWall.toggle, hidx]
                      rw [if_neg hmemsel, if_pos hcond]
                    have hstep : s.runOp (.toggle word) = { s with active_wall := some ({ w with selected := w.selected ++ [index] }) } := by
                      simp [WallRound.runOp, WallRound.toggle, hw, htog]
                    rw [hstep]
                    have hnd2 : (w.selected ++ [index]).Nodup := by
                      simp [List.nodup_append, hselnd, hmemsel]
                    have hb2 : ∀ i ∈ w.selected ++ [index],
                        i < w.ungrouped.length := by
                      intro i hi
                      cases List.mem_append.mp hi with
                      | inl h2 => exact hselb i h2
                      | inr h2 =>
                          have : i = index := by simpa using h2
                          rw [this]
                          exact hib
                    refine ⟨⟨hat, Or.inl ⟨hst, _, rfl, hwall, hnf, hnd2, hb2,
                      rem, hsub, hperm, hcount, hstr⟩⟩, ?_⟩
                    intro w1 w2 hw1 hw2 _ h8 h8'
                    rw [hw] at hw1
                    have e1 := Option.some.inj hw1
                    have e2 := Option.some.inj hw2
                    subst e1
                    rw [← e2] at h8'
                    have h9 : w.ungrouped.length ≤ 8 := h8'
                    omega
                case pos =>
                    -- four selections: the guess is checked
                    have hcond : ¬ (({ w with selected :=
                        w.selected ++ [index] } :
                        ActiveWall).selected.length ≠ SLOTS_PER_CONNECTION) := by
                      simpa [SLOTS_PER_CONNECTION] using hlen4
                    have hnd2 : (w.selected ++ [index]).Nodup := by
                      simp [List.nodup_append, hselnd, hmemsel]
                    have hb2 : ∀ i ∈ w.selected ++ [index],
                        i < w.ungrouped.length := by
                      intro i hi
                      cases List.mem_append.mp hi with
                      | inl h2 => exact hselb i h2
                      | inr h2 =>
                          have : i = index := by simpa using h2
                          rw [this]
                          exact hib
                    have hwlen : ((w.selected ++ [index]).map
                        (fun i => w.ungrouped.getD i "")).length = 4 := by
                      simpa using hlen4
                    have hwnd : ((w.selected ++ [index]).map
                        (fun i => w.ungrouped.getD i "")).Nodup := by
                      refine List.Nodup.map_on ?_ hnd2
                      intro x hx y hy hxy
                      rw [List.getD_eq_getElem w.ungrouped "" (hb2 x hx),
                        List.getD_eq_getElem w.ungrouped "" (hb2 y hy)] at hxy
                      exact (List.Nodup.getElem_inj_iff hungnd).mp hxy
                    have hwmem : ∀ wd ∈ (w.selected ++ [index]).map
                        (fun i => w.ungrouped.getD i ""), wd ∈ w.ungrouped := by
                      intro wd hwd
                      rcases List.mem_map.mp hwd with ⟨i, hi, rfl⟩
                      rw [List.getD_eq_getElem w.ungrouped "" (hb2 i hi)]
                      exact List.getElem_mem _
                    cases hfind : w.wall.find? (fun g =>
                        ((w.selected ++ [index]).map
                          (fun i => w.ungrouped.getD i "")).all
                          (fun wd => g.elements.contains wd)) with
                    | none =>
                        rcases hstr with ⟨hsnone, hrem3⟩ |
                          ⟨k, hsk, hk1, hk3, hrem2⟩
                        · -- no strikes yet: a wrong guess is a no-op
                          have htog := toggle_checked w word index hidx
                            hmemsel hcond
                          rw [check_none_none ({ w with selected := w.selected ++ [index] }) ((w.selected ++ [index]).map (fun i => w.ungrouped.getD i "")) hfind hsnone] at htog
                          simp only [] at htog
                          rw [if_neg Bool.false_ne_true] at htog
                          have hstep : s.runOp (.toggle word) = { s with active_wall := some ({ w with selected := [] }) } := by
                            simp [WallRound.runOp, WallRound.toggle, hw, htog]
                          rw [hstep]
                          refine ⟨⟨hat, Or.inl ⟨hst, _, rfl, hwall, hnf,
                            by simp, by simp, rem, hsub, hperm, hcount,
                            Or.inl ⟨hsnone, hrem3⟩⟩⟩, ?_⟩
                          intro w1 w2 hw1 hw2 _ h8 h8'
                          rw [hw] at hw1
                          have e1 := Option.some.inj hw1
                          have e2 := Option.some.inj hw2
                          subst e1
                          rw [← e2] at h8'
                          have h9 : w.ungrouped.length ≤ 8 := h8'
                          omega
                        · -- strikes are live: the counter is decremented
                          by_cases hkk : k ≤ 1
                          · -- last strike: OverflowError locks the wall in
                            have hk1' : k = 1 := by omega
                            have hdec : decide (k - 1 ≤ 0) = true :=
                              decide_eq_true (by omega)
                            have htog := toggle_checked w word index hidx
                              hmemsel hcond
                            rw [check_none_some ({ w with selected := w.selected ++ [index] }) ((w.selected ++ [index]).map (fun i => w.ungrouped.getD i "")) k hfind hsk] at htog
                            simp only [] at htog
                            rw [hdec, if_pos rfl] at htog
                            have hstep : s.runOp (.toggle word) = (({ s with active_wall := some ({ w with selected := w.selected ++ [index], strikes := some (k - 1) }) }).lock_in).2 := by
                              simp [WallRound.runOp, WallRound.toggle, hw,
                                htog]
                            obtain ⟨hl1, hl2, hl3, hl4, w3, hl5, hl6, hl7,
                                hl8⟩ :=
                              lock_in_spec ({ s with active_wall := some ({ w with selected := w.selected ++ [index], strikes := some (k - 1) }) })
                                ({ w with selected := w.selected ++ [index], strikes := some (k - 1) })
                                hst rfl hat hndw rem hmemrem hndrem hperm
                            rw [hstep]
                            have hl8' : w3.grouped.length +
                                w3.not_found.length = w.grouped.length +
                                w.not_found.length + w.ungrouped.length := hl8
                            refine ⟨⟨by rw [hl4, hl3]; exact hat,
                              Or.inr ⟨hl2, w3, hl5, hl6, hl7, by omega⟩⟩, ?_⟩
                            intro w1 w2 hw1 hw2 hqa2 _ _
                            rw [hl2] at hqa2
                            exact absurd hqa2 (by simp)
                          · -- strikes stay positive
                            have hdec : decide (k - 1 ≤ 0) = false :=
                              decide_eq_false (by omega)
                            have htog := toggle_checked w word index hidx
                              hmemsel hcond
                            rw [check_none_some ({ w with selected := w.selected ++ [index] }) ((w.selected ++ [index]).map (fun i => w.ungrouped.getD i "")) k hfind hsk] at htog
                            simp only [] at htog
                            rw [hdec, if_neg Bool.false_ne_true] at htog
                            have hstep : s.runOp (.toggle word) = { s with active_wall := some ({ w with selected := [], strikes := some (k - 1) }) } := by
                              simp [WallRound.runOp, WallRound.toggle, hw,
                                htog]
                            rw [hstep]
                            refine ⟨⟨hat, Or.inl ⟨hst, _, rfl, hwall, hnf,
                              by simp, by simp, rem, hsub, hperm, hcount,
                              Or.inr ⟨k - 1, rfl, by omega, by omega,
                                hrem2⟩⟩⟩, ?_⟩
                            intro w1 w2 hw1 hw2 _ h8 h8'
                            rw [hw] at hw1
                            have e1 := Option.some.inj hw1
                            have e2 := Option.some.inj hw2
                            subst e1
                            rw [← e2] at h8'
                            have h9 : w.ungrouped.length ≤ 8 := h8'
                            omega
                    | some g =>
                        have hgmem : g ∈ w.wall :=
                          List.mem_of_find?_eq_some hfind
                        have hgw0 : g ∈ wall0 := by
                          rw [hwall] at hgmem
                          exact hgmem
                        have hallg : ((w.selected ++ [index]).map
                            (fun i => w.ungrouped.getD i "")).all
                            (fun wd => g.elements.contains wd) = true := by
                          have h5 := List.find?_some hfind
                          exact h5
                        have hsubw : ∀ wd ∈ (w.selected ++ [index]).map
                            (fun i => w.ungrouped.getD i ""),
                            wd ∈ g.elements := by
                          intro wd hwd
                          have h5 := List.all_eq_true.mp hallg wd hwd
                          simpa using h5
                        have gel4 : g.elements.length = 4 :=
                          valid_elements_len hv g hgw0
                        have hpermw : ((w.selected ++ [index]).map
                            (fun i => w.ungrouped.getD i "")).Perm
                            g.elements := by
                          refine (hwnd.subperm hsubw).perm_of_length_le ?_
                          rw [gel4, hwlen]
                        have hne : ((w.selected ++ [index]).map
                            (fun i => w.ungrouped.getD i "")) ≠ [] := by
                          intro h0
                          rw [h0] at hwlen
                          simp at hwlen
                        obtain ⟨wd0, hwd0⟩ :=
                          List.exists_mem_of_ne_nil _ hne
                        have hwd0u : wd0 ∈ w.ungrouped := hwmem wd0 hwd0
                        have hwd0c : wd0 ∈ wallClues rem :=
                          hperm.mem_iff.mp hwd0u
                        obtain ⟨p, hprem, hpwd⟩ := mem_wallClues hwd0c
                        have hpw0 : p ∈ wall0 := hsub.subset hprem
                        have hpeq : p.elements = g.elements :=
                          wall_elements_unique hnd hpw0 hgw0 hpwd
                            (hsubw wd0 hwd0)
                        have hri := removeIndices_perm w.ungrouped
                          (w.selected ++ [index]) hnd2 hb2
                        have hsplit2 : w.ungrouped.Perm
                            (p.elements ++ wallClues (rem.erase p)) := by
                          have h5 := wallClues_perm (List.perm_cons_erase hprem)
                          rw [wallClues_cons] at h5
                          exact hperm.trans h5
                        have hca : ((removeIndices w.ungrouped
                            (w.selected ++ [index])) ++
                            (w.selected ++ [index]).map
                              (fun i => w.ungrouped.getD i "")).Perm
                            (wallClues (rem.erase p) ++ p.elements) :=
                          hri.trans (hsplit2.trans List.perm_append_comm)
                        have hwp : ((w.selected ++ [index]).map
                            (fun i => w.ungrouped.getD i "")).Perm
                            p.elements := by
                          rw [hpeq]
                          exact hpermw
                        have hung2 := perm_append_cancel hca hwp
                        have hrilen : (removeIndices w.ungrouped
                            (w.selected ++ [index])).length + 4 =
                            w.ungrouped.length := by
                          have h5 := removeIndices_length w.ungrouped
                            (w.selected ++ [index]) hnd2 hb2
                          omega
                        have hrem1 : 0 < rem.length :=
                          List.length_pos_of_mem hprem
                        have hsub2 : (rem.erase p).Sublist wall0 :=
                          (List.erase_sublist p rem).trans hsub
                        have hndrem2 : (wallClues (rem.erase p)).Nodup :=
                          hnd.sublist (wallClues_sublist hsub2)
                        have hmem2' : ∀ q ∈ rem.erase p, q ∈ w.wall :=
                          fun q hq => hmemrem q (List.mem_of_mem_erase hq)
                        have hrem2len : (rem.erase p).length =
                            rem.length - 1 := List.length_erase_of_mem hprem
                        have hulen2 : (removeIndices w.ungrouped
                            (w.selected ++ [index])).length =
                            4 * (rem.erase p).length :=
                          aux_ung_len hv hsub2 hung2
                        rcases hstr with ⟨hsnone, hrem3⟩ |
                          ⟨k, hsk, hk1, hk3, hrem2⟩
                        · -- no strikes yet: 3 or 4 groups were unfound
                          by_cases hr3 : rem.length = 3
                          · -- third group found: strikes initialised to 3
                            have h8len : (removeIndices w.ungrouped
                                (w.selected ++ [index])).length =
                                2 * SLOTS_PER_CONNECTION := by
                              simp only [SLOTS_PER_CONNECTION]
                              omega
                            have hdec : decide ((removeIndices w.ungrouped
                                (w.selected ++ [index])).length = 0) = false :=
                              decide_eq_false (by
                                simp only [SLOTS_PER_CONNECTION] at h8len
                                omega)
                            have htog := toggle_checked w word index hidx
                              hmemsel hcond
                            rw [check_some_hit ({ w with selected := w.selected ++ [index] }) ((w.selected ++ [index]).map (fun i => w.ungrouped.getD i "")) g hfind h8len] at htog
                            simp only [] at htog
                            rw [hdec, if_neg Bool.false_ne_true] at htog
                            have hstep : s.runOp (.toggle word) = { s with active_wall := some ({ w with selected := [], ungrouped := removeIndices w.ungrouped (w.selected ++ [index]), grouped := w.grouped ++ g.elements, groups := w.groups ++ [g], strikes := some 3 }) } := by
                              simp [WallRound.runOp, WallRound.toggle, hw,
                                htog]
                            rw [hstep]
                            refine ⟨⟨hat, Or.inl ⟨hst, _, rfl, hwall, hnf,
                              by simp, by simp, rem.erase p, hsub2, hung2,
                              ?_, Or.inr ⟨3, rfl, by omega, by omega,
                                by omega⟩⟩⟩, ?_⟩
                            · show (w.grouped ++ g.elements).length +
                                (removeIndices w.ungrouped
                                  (w.selected ++ [index])).length = 16
                              rw [List.length_append]
                              omega
                            · intro w1 w2 hw1 hw2 _ h8 h8'
                              rw [hw] at hw1
                              have e1 := Option.some.inj hw1
                              have e2 := Option.some.inj hw2
                              subst e1
                              rw [← e2]
                            
                          · -- four groups unfound: strikes stay absent
                            have h12len : 12 ≤ (removeIndices w.ungrouped
                                (w.selected ++ [index])).length := by
                              omega
                            have hne8 : ¬ ((removeIndices w.ungrouped
                                (w.selected ++ [index])).length =
                                2 * SLOTS_PER_CONNECTION) := by
                              simp only [SLOTS_PER_CONNECTION]
                              omega
                            have hdec : decide ((removeIndices w.ungrouped
                                (w.selected ++ [index])).length = 0) = false :=
                              decide_eq_false (by omega)
                            have htog := toggle_checked w word index hidx
                              hmemsel hcond
                            rw [check_some_miss ({ w with selected := w.selected ++ [index] }) ((w.selected ++ [index]).map (fun i => w.ungrouped.getD i "")) g hfind hne8] at htog
                            simp only [] at htog
                            rw [hdec, if_neg Bool.false_ne_true] at htog
                            have hstep : s.runOp (.toggle word) = { s with active_wall := some ({ w with selected := [], ungrouped := removeIndices w.ungrouped (w.selected ++ [index]), grouped := w.grouped ++ g.elements, groups := w.groups ++ [g] }) } := by
                              simp [WallRound.runOp, WallRound.toggle, hw,
                                htog]
                            rw [hstep]
                            refine ⟨⟨hat, Or.inl ⟨hst, _, rfl, hwall, hnf,
                              by simp, by simp, rem.erase p, hsub2, hung2,
                              ?_, Or.inl ⟨hsnone, by omega⟩⟩⟩, ?_⟩
                            · show (w.grouped ++ g.elements).length +
                                (removeIndices w.ungrouped
                                  (w.selected ++ [index])).length = 16
                              rw [List.length_append]
                              omega
                            · intro w1 w2 hw1 hw2 _ h8 h8'
                              rw [hw] at hw1
                              have e1 := Option.some.inj hw1
                              have e2 := Option.some.inj hw2
                              subst e1
                              rw [← e2] at h8'
                              have h9 : (removeIndices w.ungrouped
                                  (w.selected ++ [index])).length ≤ 8 := h8'
                              omega
                        · -- strikes are live: 1 or 2 groups were unfound
                          by_cases hr1 : rem.length = 1
                          · -- final group found: board solved, wall locks in
                            have h0len : (removeIndices w.ungrouped
                                (w.selected ++ [index])).length = 0 := by
                              omega
                            have hne8 : ¬ ((removeIndices w.ungrouped
                                (w.selected ++ [index])).length =
                                2 * SLOTS_PER_CONNECTION) := by
                              simp only [SLOTS_PER_CONNECTION]
                              omega
                            have hdec : decide ((removeIndices w.ungrouped
                                (w.selected ++ [index])).length = 0) = true :=
                              decide_eq_true h0len
                            have htog := toggle_checked w word index hidx
                              hmemsel hcond
                            rw [check_some_miss ({ w with selected := w.selected ++ [index] }) ((w.selected ++ [index]).map (fun i => w.ungrouped.getD i "")) g hfind hne8] at htog
                            simp only [] at htog
                            rw [hdec, if_pos rfl] at htog
                            have hstep : s.runOp (.toggle word) = (({ s with active_wall := some ({ w with selected := w.selected ++ [index], ungrouped := removeIndices w.ungrouped (w.selected ++ [index]), grouped := w.grouped ++ g.elements, groups := w.groups ++ [g] }) }).lock_in).2 := by
                              simp [WallRound.runOp, WallRound.toggle, hw,
                                htog]
                            obtain ⟨hl1, hl2, hl3, hl4, w3, hl5, hl6, hl7,
                                hl8⟩ :=
                              lock_in_spec ({ s with active_wall := some ({ w with selected := w.selected ++ [index], ungrouped := removeIndices w.ungrouped (w.selected ++ [index]), grouped := w.grouped ++ g.elements, groups := w.groups ++ [g] }) })
                                ({ w with selected := w.selected ++ [index], ungrouped := removeIndices w.ungrouped (w.selected ++ [index]), grouped := w.grouped ++ g.elements, groups := w.groups ++ [g] })
                                hst rfl hat hndw (rem.erase p) hmem2'
                                hndrem2 hung2
                            rw [hstep]
                            have hl8' : w3.grouped.length +
                                w3.not_found.length =
                                (w.grouped ++ g.elements).length +
                                w.not_found.length +
                                (removeIndices w.ungrouped
                                  (w.selected ++ [index])).length := hl8
                            rw [List.length_append] at hl8'
                            refine ⟨⟨by rw [hl4, hl3]; exact hat,
                              Or.inr ⟨hl2, w3, hl5, hl6, hl7, by omega⟩⟩, ?_⟩
                            intro w1 w2 hw1 hw2 hqa2 _ _
                            rw [hl2] at hqa2
                            exact absurd hqa2 (by simp)
                          · -- two groups were unfound: one remains
                            have hne8 : ¬ ((removeIndices w.ungrouped
                                (w.selected ++ [index])).length =
                                2 * SLOTS_PER_CONNECTION) := by
                              simp only [SLOTS_PER_CONNECTION]
                              omega
                            have hdec : decide ((removeIndices w.ungrouped
                                (w.selected ++ [index])).length = 0) = false :=
                              decide_eq_false (by omega)
                            have htog := toggle_checked w word index hidx
                              hmemsel hcond
                            rw [check_some_miss ({ w with selected := w.selected ++ [index] }) ((w.selected ++ [index]).map (fun i => w.ungrouped.getD i "")) g hfind hne8] at htog
                            simp only [] at htog
                            rw [hdec, if_neg Bool.false_ne_true] at htog
                            have hstep : s.runOp (.toggle word) = { s with active_wall := some ({ w with selected := [], ungrouped := removeIndices w.ungrouped (w.selected ++ [index]), grouped := w.grouped ++ g.elements, groups := w.groups ++ [g] }) } := by
                              simp [WallRound.runOp, WallRound.toggle, hw,
                                htog]
                            rw [hstep]
                            refine ⟨⟨hat, Or.inl ⟨hst, _, rfl, hwall, hnf,
                              by simp, by simp, rem.erase p, hsub2, hung2,
                              ?_, Or.inr ⟨k, hsk, hk1, hk3, by omega⟩⟩⟩, ?_⟩
                            · show (w.grouped ++ g.elements).length +
                                (removeIndices w.ungrouped
                                  (w.selected ++ [index])).length = 16
                              rw [List.length_append]
                              omega
                            · intro w1 w2 hw1 hw2 _ h8 h8'
                              rw [hw] at hw1
                              have e1 := Option.some.inj hw1
                              subst e1
                              omega

/-- The wall invariant holds after any sequence of toggle/lock-in ops. -/
theorem wallAux_runOps {wall0 : List TextQ}
    (hv : connectingWallValid wall0 = true)
    (hnd : (wallClues wall0).Nodup) :
    ∀ (ops : List WallOp) (s : WallRound), WallAux wall0 s →
    WallAux wall0 (s.runOps ops) := by
  intro ops
  induction ops with
  | nil => intro s h; exact h
  | cons op ops ih =>
      intro s h
      have h2 := (wallAux_step hv hnd h op).1
      have h3 : s.runOps (op :: ops) = (s.runOp op).runOps ops := by
        simp [WallRound.runOps]
      rw [h3]
      exact ih _ h2

/-- The wall invariant holds right after a wall is selected. -/
theorem wallAux_start (teams : List Int) (at0 : Nat)
    (other : Option (List TextQ)) (wall : List TextQ)
    (shuffled : List String)
    (hlen : wall.length = 4)
    (hv : connectingWallValid wall = true)
    (hsh : shuffled.Perm (wallClues wall))
    (hat : at0 < teams.length) :
    WallAux wall (wallPlayStart teams at0 other wall shuffled) := by
  refine ⟨hat, Or.inl ⟨rfl, ActiveWall.init wall shuffled, rfl, rfl, rfl,
    by simp [ActiveWall.init], by simp [ActiveWall.init], wall,
    List.Sublist.refl wall, hsh, ?_, Or.inl ⟨rfl, by omega⟩⟩⟩
  have h1 := hsh.length_eq
  have h2 := clues_length (valid_elements_len hv)
  show ([] : List String).length + shuffled.length = 16
  simp only [List.length_nil]
  omega

/-- C6 (amended): from a just-selected wall whose 16 clues are pairwise
distinct, under every sequence of toggle commands and LOCK_IN actions:
|grouped| + |ungrouped| + |not_found| = 16 at all times; while the round is
in QUESTION_ACTIVE, strikes is null iff more than 8 clues are ungrouped, and
strikes is never negative; and the op that first drops |ungrouped| to 8
while staying in QUESTION_ACTIVE initialises strikes to 3. -/
theorem wall_invariants (teams : List Int) (at0 : Nat)
    (other : Option (List TextQ)) (wall : List TextQ)
    (shuffled : List String) (ops : List WallOp)
    (hlen : wall.length = 4)
    (hv : connectingWallValid wall = true)
    (hnd : (wallClues wall).Nodup)
    (hsh : shuffled.Perm (wallClues wall))
    (hat : at0 < teams.length) :
    (∀ w, ((wallPlayStart teams at0 other wall shuffled).runOps ops).active_wall = some w →
      w.grouped.length + w.ungrouped.length + w.not_found.length = 16 ∧
      (((wallPlayStart teams at0 other wall shuffled).runOps ops).state = InRoundState.QUESTION_ACTIVE →
        (w.strikes = none ↔ 8 < w.ungrouped.length) ∧
        (∀ k, w.strikes = some k → 0 ≤ k))) ∧
    (∀ op w w2,
      ((wallPlayStart teams at0 other wall shuffled).runOps ops).active_wall = some w →
      (((wallPlayStart teams at0 other wall shuffled).runOps ops).runOp op).active_wall = some w2 →
      (((wallPlayStart teams at0 other wall shuffled).runOps ops).runOp op).state = InRoundState.QUESTION_ACTIVE →
      8 < w.ungrouped.length → w2.ungrouped.length ≤ 8 →
      w2.strikes = some 3) := by
  have haux := wallAux_runOps hv hnd ops _
    (wallAux_start teams at0 other wall shuffled hlen hv hsh hat)
  constructor
  · intro w hwq
    obtain ⟨hat2, hcase⟩ := haux
    cases hcase with
    | inl hqa =>
        obtain ⟨hst, w1, hw1, hwall, hnf, hselnd, hselb, rem, hsub, hperm,
          hcount, hstr⟩ := hqa
        rw [hw1] at hwq
        obtain rfl : w1 = w := Option.some.inj hwq
        have hulen := aux_ung_len hv hsub hperm
        have hnf0 : w1.not_found.length = 0 := by rw [hnf]; rfl
        refine ⟨by omega, fun _ => ⟨⟨?_, ?_⟩, ?_⟩⟩
        · intro hs
          rcases hstr with ⟨_, h3⟩ | ⟨k, hk, _, _, _⟩
          · omega
          · rw [hs] at hk
            exact absurd hk (by simp)
        · intro h8
          rcases hstr with ⟨hsnone, _⟩ | ⟨k, _, _, _, hr2⟩
          · exact hsnone
          · omega
        · intro k hk
          rcases hstr with ⟨hsnone, _⟩ | ⟨k2, hk2, h1k, _, _⟩
          · rw [hsnone] at hk
            exact absurd hk (by simp)
          · rw [hk2] at hk
            have e := Option.some.inj hk
            omega
    | inr hlock =>
        obtain ⟨hst, w1, hw1, hU, hS, hC⟩ := hlock
        rw [hw1] at hwq
        obtain rfl : w1 = w := Option.some.inj hwq
        have hU0 : w1.ungrouped.length = 0 := by rw [hU]; rfl
        refine ⟨by omega, fun hqa2 => ?_⟩
        rw [hst] at hqa2
        exact absurd hqa2 (by simp)
  · intro op w w2 hwq hw2 hqa2 h8 h8p
    exact (wallAux_step hv hnd haux op).2 w w2 hwq hw2 hqa2 h8 h8p

/-- A connecting wall that is valid by the model's own predicate but reuses
the clues b, c, d across two groups. -/
def dupWall : List TextQ :=
  [⟨"A", "", ["a", "b", "c", "d"]⟩, ⟨"B", "", ["b", "c", "d", "e"]⟩,
   ⟨"C", "", ["f", "g", "h", "i"]⟩, ⟨"D", "", ["j", "k", "l", "m"]⟩]

/-- Solve group A, then lock in: `reveal_wall` raises ValueError mid-removal
on the duplicated clues. -/
def dupOps : List WallOp :=
  [.toggle "a", .toggle "b", .toggle "c", .toggle "d", .lockIn]

/-- C6 counterexample: on a valid wall with duplicate clues across groups, a
reachable state in sub-state QUESTION_ACTIVE has
|grouped| + |ungrouped| + |not_found| = 20, not 16 (`reveal_wall`'s
ValueError escapes mid-removal, leaving the wall partially revealed). -/
theorem wall_counts_broken_on_duplicate_clues :
    connectingWallValid dupWall = true ∧
    dupWall.length = 4 ∧
    ((wallPlayStart [0, 0] 0 none dupWall
      (wallClues dupWall)).runOps dupOps).state =
      InRoundState.QUESTION_ACTIVE ∧
    (((wallPlayStart [0, 0] 0 none dupWall
      (wallClues dupWall)).runOps dupOps).active_wall.map
      (fun w => w.grouped.length + w.ungrouped.length + w.not_found.length))
      = some 20 := by
  refine ⟨by decide, by decide, by decide, by decide⟩

/-- A valid duplicate-free demo wall. -/
def demoWall : List TextQ :=
  [⟨"A", "", ["a", "b", "c", "d"]⟩, ⟨"B", "", ["e", "f", "g", "h"]⟩,
   ⟨"C", "", ["i", "j", "k", "l"]⟩, ⟨"D", "", ["m", "n", "o", "p"]⟩]

/-- Witness for `wall_invariants` at a concrete wall and the empty op
sequence. -/
theorem wall_invariants_witness :
    (ActiveWall.init demoWall (wallClues demoWall)).grouped.length +
      (ActiveWall.init demoWall (wallClues demoWall)).ungrouped.length +
      (ActiveWall.init demoWall (wallClues demoWall)).not_found.length = 16 :=
  ((wall_invariants [0, 0] 0 none demoWall (wallClues demoWall) [] rfl
      (by decide) (by decide) (List.Perm.refl _) (by decide)).1
    (ActiveWall.init demoWall (wallClues demoWall)) rfl).1

/-- Witness for `std_score_team_locked_in` at a concrete state. -/
theorem std_score_team_locked_in_witness :
    ((Catbox.StdRound.mk [3, 7] .LOCKED_IN 1 [] [] Catbox.defaultOCQuestion
        2 4).do_action
        (if 1 = 0 then .SCORE_TEAM1 else .SCORE_TEAM2)).map (stdScoreObs 1)
      = some (true, ([3, 7] : List Int).getD 1 0 + Catbox.stdScoreTable.getD 2 0,
              ([3, 7] : List Int).getD (1 - 1) 0, .ANSWER_REVEALED, 4) :=
  std_score_team_locked_in _ 2 1 rfl rfl (by decide) (by decide) (by decide) rfl

end Catbox
